import Mathlib

set_option maxHeartbeats 1000000
set_option linter.unnecessarySimpa false

/-!
Shallow embedding of `src/data/Graph.ts` (the echarts graph container).

JavaScript object references are modelled with stable integer indices:
a `GraphNode` reference is an index into `Graph.nodes`, a `GraphEdge`
reference is an index into `Graph.edges`.  Each array slot of the source
holds a distinct freshly-constructed object, so reference equality of the
source coincides with index equality here.  JS dictionaries (`_nodesMap`,
`_edgesMap`) are association lists where assignment prepends (a later
assignment shadows an earlier one under lookup, as in JS).  The external
record tables (`List` from `./List`, not part of the sources) are modelled
from the spec, see `RecordTable`.
-/

/-- Association-list lookup, modelling JS dictionary access `map[key]`
(`none` plays the role of `undefined`, which is falsy). -/
def alookup {β : Type} : List (String × β) → String → Option β
  | [], _ => none
  | (k, v) :: rest, key => if k = key then some v else alookup rest key

/-- Mutation of the element at index `i` through a reference, as in
`xs[i].field = v`.  Out of range it is the identity (unreachable in the
modelled runs, where every dereferenced index is in range). -/
def updateAt {α : Type} : List α → Nat → (α → α) → List α
  | [], _, _ => []
  | x :: xs, 0, f => f x :: xs
  | x :: xs, Nat.succ n, f => x :: updateAt xs n f

/-- Replace-or-append update of an association list (JS `obj[key] = v`
keeping one entry per key). -/
def insertKV {β : Type} (key : String) (v : β) : List (String × β) → List (String × β)
  | [] => [(key, v)]
  | (k, w) :: rest => if k = key then (k, v) :: rest else (k, w) :: insertKV key v rest

/-- Enumeration of a list with positions starting at `i`, modelling the
`for (var i = 0; i < len; i++)` loops of the source. -/
def enumPairs {α : Type} : Nat → List α → List (Nat × α)
  | _, [] => []
  | i, x :: xs => (i, x) :: enumPairs (i + 1) xs

/-- Modelled from the spec: the external per-item record table (`List` from
`./List`, not among the sources).  It holds a live view (`rawIndices`:
live position → storage index, the spec's `position_to_storage_index`) and
per-storage-row payloads: parsed field values by dimension name, visual
key/values, layout payloads and rendering handles. -/
structure RecordTable where
  rawIndices : List Nat
  dims : List (String × List Int)
  visuals : List (List (String × Int))
  layouts : List (List (String × Int))
  graphicEls : List Int
deriving Repr, DecidableEq

instance : Inhabited RecordTable := ⟨⟨[], [], [], [], []⟩⟩

/-- Modelled from the spec: `count()` — number of live positions. -/
def RecordTable.count (t : RecordTable) : Nat := t.rawIndices.length

/-- Modelled from the spec: `getRawIndex(pos)` for an in-range `Nat`
position, as used by `Graph.update`. -/
def RecordTable.rawAt (t : RecordTable) (i : Nat) : Nat := t.rawIndices.getD i 0

/-- Modelled from the spec: `getRawIndex(dataIndex)` at the accessor
surface; `none` when the entity has no live row. -/
def RecordTable.getRawIndexN (t : RecordTable) (di : Int) : Option Nat :=
  if 0 ≤ di then t.rawIndices.get? di.toNat else none

/-- Modelled from the spec: dimension-name normalization (`getDimension`). -/
def RecordTable.getDimension (_t : RecordTable) (d : String) : String := d

/-- Modelled from the spec: `get(dim, dataIndex)` — the parsed value of a
named field of the row at a live position. -/
def RecordTable.get (t : RecordTable) (dim : String) (di : Int) : Option Int :=
  (alookup t.dims dim).bind fun col => (t.getRawIndexN di).bind fun s => col.get? s

/-- Modelled from the spec: `getItemVisual(dataIndex, key, ignoreParent)`. -/
def RecordTable.getItemVisual (t : RecordTable) (di : Int) (key : String)
    (_ignoreParent : Bool) : Option Int :=
  (t.getRawIndexN di).bind fun s => (t.visuals.get? s).bind fun kvs => alookup kvs key

/-- Modelled from the spec: `setItemVisual(dataIndex, key, value)`. -/
def RecordTable.setItemVisual (t : RecordTable) (di : Int) (key : String) (v : Int) :
    RecordTable :=
  match t.getRawIndexN di with
  | some s => { t with visuals := updateAt t.visuals s (insertKV key v) }
  | none => t

/-- Modelled from the spec: `getItemLayout(dataIndex)`. -/
def RecordTable.getItemLayout (t : RecordTable) (di : Int) : Option (List (String × Int)) :=
  (t.getRawIndexN di).bind fun s => t.layouts.get? s

/-- Modelled from the spec: `setItemLayout(dataIndex, layout, merge)` with
the merge-vs-replace flag. -/
def RecordTable.setItemLayout (t : RecordTable) (di : Int) (l : List (String × Int))
    (merge : Bool) : RecordTable :=
  match t.getRawIndexN di with
  | some s =>
      { t with layouts :=
          (updateAt t.layouts s
            (fun old => if merge then l.foldl (fun a p => insertKV p.1 p.2 a) old else l)) }
  | none => t

/-- Modelled from the spec: `getItemGraphicEl(dataIndex)`. -/
def RecordTable.getItemGraphicEl (t : RecordTable) (di : Int) : Option Int :=
  (t.getRawIndexN di).bind fun s => t.graphicEls.get? s

/-- Modelled from the spec: `filterSelf(pred)` — keep the live positions
whose (live) index satisfies the predicate; storage rows are untouched. -/
def RecordTable.filterSelf (t : RecordTable) (pred : Nat → Bool) : RecordTable :=
  { t with rawIndices := ((enumPairs 0 t.rawIndices).filter (fun p => pred p.1)).map (fun p => p.2) }

/-- `GraphNode` of the source: id, adjacency lists (edge indices), link to
the record row (`dataIndex`) and the transient BFS flag `__visited`.
Field defaults of the source class: `dataIndex = -1`, empty lists. -/
structure GraphNode where
  id : String
  dataIndex : Int
  inEdges : List Nat
  outEdges : List Nat
  edges : List Nat
  visited : Bool
deriving Repr, DecidableEq

instance : Inhabited GraphNode := ⟨⟨"", -1, [], [], [], false⟩⟩

/-- `GraphEdge` of the source: two endpoint node indices (source/target if
directed) and the record row link. -/
structure GraphEdge where
  node1 : Nat
  node2 : Nat
  dataIndex : Int
deriving Repr, DecidableEq

instance : Inhabited GraphEdge := ⟨⟨0, 0, -1⟩⟩

/-- `Graph` of the source: directed flag, node and edge arrays, the two id
indices `_nodesMap` / `_edgesMap`, and the two bound record tables. -/
structure Graph where
  directed : Bool
  nodes : List GraphNode
  edges : List GraphEdge
  nodesMap : List (String × Nat)
  edgesMap : List (String × Nat)
  data : RecordTable
  edgeData : RecordTable
deriving Repr, DecidableEq

/-- `new Graph(directed)`. -/
def Graph.empty (directed : Bool) : Graph :=
  ⟨directed, [], [], [], [], default, default⟩

/-- `generateNodeKey`: `'_EC_' + id`. -/
def generateNodeKey (id : String) : String := "_EC_" ++ id

/-- The id normalization at the head of `addNode`:
`id = id == null ? ('' + dataIndex) : ('' + id)` (`'' + undefined` is
`"undefined"`). -/
def normalizeId (id : Option String) (di : Option Int) : String :=
  match id with
  | some s => s
  | none =>
      match di with
      | some d => toString d
      | none => "undefined"

/-- `Graph.addNode(id, dataIndex)`.  Returns the mutated graph together
with the returned node (its index), `none` on the duplicate-id branch. -/
def Graph.addNode (g : Graph) (id : Option String) (di : Option Int) :
    Graph × Option Nat :=
  let i := normalizeId id di
  match alookup g.nodesMap (generateNodeKey i) with
  | some _ => (g, none)
  | none =>
      let node : GraphNode :=
        { id := i, dataIndex := di.getD (-1),
          inEdges := [], outEdges := [], edges := [], visited := false }
      ({ g with nodes := g.nodes ++ [node],
                nodesMap := (generateNodeKey i, g.nodes.length) :: g.nodesMap },
       some g.nodes.length)

/-- `Graph.getNodeById(id)`. -/
def Graph.getNodeById (g : Graph) (id : String) : Option Nat :=
  alookup g.nodesMap (generateNodeKey id)

/-- An `addEdge` endpoint argument: a `GraphNode` reference or a positional
index (both are the JS number / node-object cases, a node reference being
an in-range index) or a node id string. -/
inductive NodeRef where
  | byIndex : Nat → NodeRef
  | byId : String → NodeRef
deriving Repr, DecidableEq

/-- Endpoint resolution of `addEdge`: a number indexes `nodes` (an
out-of-range number yields `undefined`, which then goes through
`nodesMap[generateNodeKey(undefined)]`, i.e. key `"_EC_undefined"`); a
non-`GraphNode` value goes through the id map. -/
def Graph.resolveNode (g : Graph) (r : NodeRef) : Option Nat :=
  match r with
  | NodeRef.byIndex n =>
      if n < g.nodes.length then some n
      else alookup g.nodesMap (generateNodeKey "undefined")
  | NodeRef.byId s => alookup g.nodesMap (generateNodeKey s)

/-- `n1.outEdges.push(edge)`. -/
def pushOut (e : Nat) (n : GraphNode) : GraphNode := { n with outEdges := n.outEdges ++ [e] }

/-- `n2.inEdges.push(edge)`. -/
def pushIn (e : Nat) (n : GraphNode) : GraphNode := { n with inEdges := n.inEdges ++ [e] }

/-- `n.edges.push(edge)`. -/
def pushEdge (e : Nat) (n : GraphNode) : GraphNode := { n with edges := n.edges ++ [e] }

/-- The `if (this._directed) { n1.outEdges.push(edge); n2.inEdges.push(edge); }`
step of `addEdge`. -/
def adjAfterDirected (ns : List GraphNode) (directed : Bool) (i1 i2 e : Nat) :
    List GraphNode :=
  if directed then updateAt (updateAt ns i1 (pushOut e)) i2 (pushIn e) else ns

/-- The straight-line insertion part of `addEdge` once both endpoints are
resolved and the key is known to be absent: constructs the edge, updates
the adjacency lists (`outEdges`/`inEdges` when directed; `edges` of `n1`,
and of `n2` only when `n1 !== n2`), appends to `edges` and indexes the
ordered key. -/
def Graph.addEdgeCore (g : Graph) (i1 i2 : Nat) (di : Option Int) : Graph :=
  let eIdx := g.edges.length
  let key := (g.nodes.getD i1 default).id ++ "-" ++ (g.nodes.getD i2 default).id
  let ns1 := adjAfterDirected g.nodes g.directed i1 i2 eIdx
  let ns2 := updateAt ns1 i1 (pushEdge eIdx)
  let ns3 := if i1 ≠ i2 then updateAt ns2 i2 (pushEdge eIdx) else ns2
  { g with nodes := ns3,
           edges := g.edges ++ [⟨i1, i2, di.getD (-1)⟩],
           edgesMap := (key, eIdx) :: g.edgesMap }

/-- `Graph.addEdge(n1, n2, dataIndex)`.  Returns the mutated graph and the
returned edge (its index); `none` when an endpoint does not resolve or the
ordered key `n1.id + '-' + n2.id` is already present. -/
def Graph.addEdge (g : Graph) (r1 r2 : NodeRef) (di : Option Int) :
    Graph × Option Nat :=
  match g.resolveNode r1, g.resolveNode r2 with
  | some i1, some i2 =>
      let key := (g.nodes.getD i1 default).id ++ "-" ++ (g.nodes.getD i2 default).id
      match alookup g.edgesMap key with
      | some _ => (g, none)
      | none => (g.addEdgeCore i1 i2 di, some g.edges.length)
  | _, _ => (g, none)

/-- A `getEdge` side argument: a `GraphNode` (reference = index, of which
only the `id` is read) or an id string. -/
inductive EdgeEnd where
  | node : Nat → EdgeEnd
  | id : String → EdgeEnd
deriving Repr, DecidableEq

/-- The id a `getEdge` side argument reduces to. -/
def Graph.endId (g : Graph) (e : EdgeEnd) : String :=
  match e with
  | EdgeEnd.node i => (g.nodes.getD i default).id
  | EdgeEnd.id s => s

/-- `Graph.getEdge(n1, n2)`: exact ordered key for directed graphs;
`(n1,n2)` then `(n2,n1)` for undirected ones. -/
def Graph.getEdge (g : Graph) (e1 e2 : EdgeEnd) : Option Nat :=
  let s1 := g.endId e1
  let s2 := g.endId e2
  if g.directed then alookup g.edgesMap (s1 ++ "-" ++ s2)
  else
    match alookup g.edgesMap (s1 ++ "-" ++ s2) with
    | some e => some e
    | none => alookup g.edgesMap (s2 ++ "-" ++ s1)

/-- The `direction` argument of `breadthFirstTraverse`. -/
inductive Direction where
  | dnone
  | din
  | dout
deriving Repr, DecidableEq

/-- The adjacency list selected by `direction`
(`'out' → outEdges, 'in' → inEdges, else edges`). -/
def GraphNode.adj (n : GraphNode) (d : Direction) : List Nat :=
  match d with
  | Direction.dout => n.outEdges
  | Direction.din => n.inEdges
  | Direction.dnone => n.edges

/-- A `breadthFirstTraverse` start argument: a `GraphNode` reference or an
id string. -/
inductive GNodeRef where
  | ref : Nat → GNodeRef
  | byId : String → GNodeRef
deriving Repr, DecidableEq

/-- Start resolution of `breadthFirstTraverse`: a `GraphNode` passes
through, a string goes through the id map. -/
def Graph.resolveStart (g : Graph) (r : GNodeRef) : Option Nat :=
  match r with
  | GNodeRef.ref i => some i
  | GNodeRef.byId s => alookup g.nodesMap (generateNodeKey s)

/-- The inner `for` loop over the current node's selected adjacency list:
computes the other endpoint of each edge, and on an unvisited node invokes
the callback (recording the call), stopping the whole traversal when it
returns `true`, otherwise enqueueing and marking the node.  Returns the
updated node array, queue, call trace, and the stop flag. -/
def bfsVisit (es : List GraphEdge) (cb : Nat → Option Nat → Bool) (cur : Nat) :
    List Nat → List GraphNode → List Nat → List (Nat × Option Nat) →
    List GraphNode × List Nat × List (Nat × Option Nat) × Bool
  | [], ns, q, acc => (ns, q, acc, false)
  | eIdx :: rest, ns, q, acc =>
      let e := es.getD eIdx default
      let other := if e.node1 = cur then e.node2 else e.node1
      if (ns.getD other default).visited then bfsVisit es cb cur rest ns q acc
      else
        let acc' := acc ++ [(other, some cur)]
        if cb other (some cur) then (ns, q, acc', true)
        else
          bfsVisit es cb cur rest
            (updateAt ns other (fun n => { n with visited := true })) (q ++ [other]) acc'

/-- The `while (queue.length)` loop, with explicit fuel (the source loop
terminates because every enqueued node is marked visited; any completed
run of the source is reproduced by a large enough fuel, and `none` is
returned only on fuel exhaustion). -/
def bfsLoop (es : List GraphEdge) (d : Direction) (cb : Nat → Option Nat → Bool) :
    Nat → List GraphNode → List Nat → List (Nat × Option Nat) →
    Option (List (Nat × Option Nat))
  | 0, _, _, _ => none
  | Nat.succ _, _, [], acc => some acc
  | Nat.succ fuel, ns, cur :: q, acc =>
      match bfsVisit es cb cur ((ns.getD cur default).adj d) ns q acc with
      | (_, _, acc', true) => some acc'
      | (ns', q', acc', false) => bfsLoop es d cb fuel ns' q' acc'

/-- `Graph.breadthFirstTraverse(cb, startNode, direction)`.  The callback
is modelled as a pure predicate; the result is the ordered trace of
callback invocations `(node, fromNode)` (`some` when the run completed,
`none` on fuel exhaustion). -/
def Graph.breadthFirstTraverse (g : Graph) (cb : Nat → Option Nat → Bool)
    (start : GNodeRef) (d : Direction) (fuel : Nat) :
    Option (List (Nat × Option Nat)) :=
  match g.resolveStart start with
  | none => some []
  | some s =>
      let ns := g.nodes.map fun n => { n with visited := false }
      if cb s none then some [(s, none)]
      else bfsLoop g.edges d cb fuel ns [s] [(s, none)]

/-- Assignment loop `nodes[data.getRawIndex(i)].dataIndex = i` over the
enumerated live view. -/
def assignNodeDataIdx (ns : List GraphNode) : List (Nat × Nat) → List GraphNode
  | [] => ns
  | (pos, raw) :: rest =>
      assignNodeDataIdx (updateAt ns raw (fun n => { n with dataIndex := (pos : Int) })) rest

/-- Assignment loop `edges[edgeData.getRawIndex(i)].dataIndex = i`. -/
def assignEdgeDataIdx (es : List GraphEdge) : List (Nat × Nat) → List GraphEdge
  | [] => es
  | (pos, raw) :: rest =>
      assignEdgeDataIdx (updateAt es raw (fun e => { e with dataIndex := (pos : Int) })) rest

/-- The node phase of `Graph.update()`: reset every node's `dataIndex` to
`-1`, then `nodes[data.getRawIndex(i)].dataIndex = i` over the node
table's live view. -/
def Graph.updatedNodes (g : Graph) : List GraphNode :=
  assignNodeDataIdx (g.nodes.map fun n => { n with dataIndex := -1 })
    (enumPairs 0 g.data.rawIndices)

/-- The predicate `update()` hands to `edgeData.filterSelf`: the edge of
the row's storage index has two live endpoints (judged against the node
array `ns1` as assigned by the node phase). -/
def Graph.updatePred (g : Graph) (ns1 : List GraphNode) : Nat → Bool := fun idx =>
  decide (0 ≤ (ns1.getD (g.edges.getD (g.edgeData.rawAt idx) default).node1 default).dataIndex)
    && decide (0 ≤ (ns1.getD (g.edges.getD (g.edgeData.rawAt idx) default).node2 default).dataIndex)

/-- `Graph.update()`: reset node `dataIndex`, assign it from the node
table's live view, re-filter the edge table keeping only rows whose edge
has two live endpoints, then reset and reassign edge `dataIndex` from the
filtered edge table. -/
def Graph.update (g : Graph) : Graph :=
  let ns1 := g.updatedNodes
  let ed := g.edgeData.filterSelf (g.updatePred ns1)
  let es1 := assignEdgeDataIdx (g.edges.map fun e => { e with dataIndex := -1 })
      (enumPairs 0 ed.rawIndices)
  { g with nodes := ns1, edges := es1, edgeData := ed }

/-- `Graph.clone()`: fresh graph with the same directed flag, every node
re-added by id with its `dataIndex` as seed, every edge re-added by its
endpoint ids. -/
def Graph.clone (g : Graph) : Graph :=
  let g1 := g.nodes.foldl
    (fun acc n => (acc.addNode (some n.id) (some n.dataIndex)).1) (Graph.empty g.directed)
  g.edges.foldl
    (fun acc e =>
      (acc.addEdge (NodeRef.byId ((g.nodes.getD e.node1 default).id))
        (NodeRef.byId ((g.nodes.getD e.node2 default).id)) (some e.dataIndex)).1) g1

/-- Which record table of the host graph an accessor mixin closes over
(the `dataName` parameter of `createGraphDataProxyMixin`). -/
inductive DataName where
  | data
  | edgeData
deriving Repr, DecidableEq

/-- `this[hostName][dataName]`. -/
def Graph.tableOf (g : Graph) (dn : DataName) : RecordTable :=
  match dn with
  | DataName.data => g.data
  | DataName.edgeData => g.edgeData

/-- Write back the selected record table (table mutation through the host
graph's field). -/
def Graph.setTable (g : Graph) (dn : DataName) (t : RecordTable) : Graph :=
  match dn with
  | DataName.data => { g with data := t }
  | DataName.edgeData => { g with edgeData := t }

/-- The record of accessor closures produced by
`createGraphDataProxyMixin`; each takes the host's graph and the host's
own `dataIndex`. -/
structure GraphDataProxy where
  getValue : Graph → Int → Option String → Option Int
  setVisual : Graph → Int → String → Int → Graph
  getVisual : Graph → Int → String → Bool → Option Int
  setLayout : Graph → Int → List (String × Int) → Bool → Graph
  getLayout : Graph → Int → Option (List (String × Int))
  getGraphicEl : Graph → Int → Option Int
  getRawIndex : Graph → Int → Option Nat

/-- `createGraphDataProxyMixin(hostName, dataName)`, lines 415–454 of the
source: every operation is a pure delegation to
`this[hostName][dataName]` keyed by `this.dataIndex`; the setters are
guarded by `this.dataIndex >= 0`. -/
def createGraphDataProxyMixin (dataName : DataName) : GraphDataProxy where
  getValue g di dim :=
    let data := g.tableOf dataName
    data.get (data.getDimension (dim.getD "value")) di
  setVisual g di key v :=
    if 0 ≤ di then g.setTable dataName ((g.tableOf dataName).setItemVisual di key v) else g
  getVisual g di key ignoreParent := (g.tableOf dataName).getItemVisual di key ignoreParent
  setLayout g di l merge :=
    if 0 ≤ di then g.setTable dataName ((g.tableOf dataName).setItemLayout di l merge) else g
  getLayout g di := (g.tableOf dataName).getItemLayout di
  getGraphicEl g di := (g.tableOf dataName).getItemGraphicEl di
  getRawIndex g di := (g.tableOf dataName).getRawIndexN di

/-- Line 460 of the source:
`zrUtil.mixin(GraphEdge, createGraphDataProxyMixin('hostGraph', 'data'))` —
the accessor surface attached to `GraphEdge`. -/
def graphEdgeProxy : GraphDataProxy := createGraphDataProxyMixin DataName.data

/-- Line 461 of the source:
`zrUtil.mixin(GraphNode, createGraphDataProxyMixin('hostGraph', 'edgeData'))` —
the accessor surface attached to `GraphNode`. -/
def graphNodeProxy : GraphDataProxy := createGraphDataProxyMixin DataName.edgeData

/-- A mutating operation of the graph API (the operations that build and
maintain a graph: node/edge insertion, binding of the record tables, and
synchronization). -/
inductive GraphOp where
  | addNode (id : Option String) (di : Option Int)
  | addEdge (r1 r2 : NodeRef) (di : Option Int)
  | setData (t : RecordTable)
  | setEdgeData (t : RecordTable)
  | update
deriving Repr

/-- Apply one operation (dropping the returned entity). -/
def Graph.applyOp (g : Graph) (op : GraphOp) : Graph :=
  match op with
  | GraphOp.addNode i d => (g.addNode i d).1
  | GraphOp.addEdge r1 r2 d => (g.addEdge r1 r2 d).1
  | GraphOp.setData t => { g with data := t }
  | GraphOp.setEdgeData t => { g with edgeData := t }
  | GraphOp.update => g.update

/-- A graph reachable by the public API: the empty graph followed by any
sequence of operations. -/
def buildGraph (directed : Bool) (ops : List GraphOp) : Graph :=
  ops.foldl Graph.applyOp (Graph.empty directed)

/-- The `_nodesMap` key of the node stored at index `i` of a node array. -/
def nodeKeyAt (ns : List GraphNode) (i : Nat) : String :=
  generateNodeKey ((ns.getD i default).id)

/-- The `_edgesMap` key of the edge stored at index `j`:
`node1.id + '-' + node2.id`. -/
def edgeKeyAt (ns : List GraphNode) (es : List GraphEdge) (j : Nat) : String :=
  (ns.getD (es.getD j default).node1 default).id ++ "-"
    ++ (ns.getD (es.getD j default).node2 default).id

/-- Well-formedness of the two id indices over explicit components: every
entry points into the corresponding array, and the entry for each stored
node/edge key resolves to that node/edge. -/
def WFmapsParts (ns : List GraphNode) (es : List GraphEdge)
    (nm em : List (String × Nat)) : Prop :=
  (∀ p ∈ nm, p.2 < ns.length) ∧
  (∀ i, i < ns.length → alookup nm (nodeKeyAt ns i) = some i) ∧
  (∀ p ∈ em, p.2 < es.length) ∧
  (∀ j, j < es.length → alookup em (edgeKeyAt ns es j) = some j)

/-- Adjacency consistency over explicit components: every stored edge has
in-range endpoints, appears exactly once in `node1.edges`, exactly once in
`node2.edges` when the endpoints are distinct (a self-loop is recorded
once), and, when directed, exactly once in `node1.outEdges` and
`node2.inEdges`; conversely every entry of any node's adjacency lists is
an index of the edge array, and an undirected graph keeps all
`inEdges`/`outEdges` empty. -/
def adjConsistentParts (dd : Bool) (ns : List GraphNode) (es : List GraphEdge) : Prop :=
  (∀ j, j < es.length →
    (es.getD j default).node1 < ns.length ∧
    (es.getD j default).node2 < ns.length ∧
    (ns.getD (es.getD j default).node1 default).edges.count j = 1 ∧
    ((es.getD j default).node1 ≠ (es.getD j default).node2 →
      (ns.getD (es.getD j default).node2 default).edges.count j = 1) ∧
    (dd = true →
      (ns.getD (es.getD j default).node1 default).outEdges.count j = 1 ∧
      (ns.getD (es.getD j default).node2 default).inEdges.count j = 1)) ∧
  (∀ i, i < ns.length →
    (∀ x ∈ (ns.getD i default).edges, x < es.length) ∧
    (∀ x ∈ (ns.getD i default).inEdges, x < es.length) ∧
    (∀ x ∈ (ns.getD i default).outEdges, x < es.length) ∧
    (dd = false →
      (ns.getD i default).inEdges = [] ∧ (ns.getD i default).outEdges = []))

/-- The `_nodesMap` key of the node stored at index `i`. -/
def Graph.nodeKeyOf (g : Graph) (i : Nat) : String := nodeKeyAt g.nodes i

/-- The `_edgesMap` key of the edge stored at index `j`. -/
def Graph.edgeKeyOf (g : Graph) (j : Nat) : String := edgeKeyAt g.nodes g.edges j

/-- Well-formedness of a graph's two id indices. -/
def Graph.WFmaps (g : Graph) : Prop :=
  WFmapsParts g.nodes g.edges g.nodesMap g.edgesMap

/-- Adjacency consistency of a graph (see `adjConsistentParts`). -/
def Graph.adjConsistent (g : Graph) : Prop :=
  adjConsistentParts g.directed g.nodes g.edges

/-- The reachable-graph invariant: well-formed indices plus adjacency
consistency. -/
def Graph.Inv (g : Graph) : Prop := g.WFmaps ∧ g.adjConsistent

/-- Topological sanity of a node/edge array pair: edge endpoints index the
node array and adjacency entries index the edge array (what
`breadthFirstTraverse` relies on). -/
def SaneTopo (ns : List GraphNode) (es : List GraphEdge) : Prop :=
  (∀ e ∈ es, e.node1 < ns.length ∧ e.node2 < ns.length) ∧
  (∀ n ∈ ns, (∀ x ∈ n.edges, x < es.length) ∧ (∀ x ∈ n.inEdges, x < es.length) ∧
    (∀ x ∈ n.outEdges, x < es.length))

instance instDecSaneTopo (ns : List GraphNode) (es : List GraphEdge) :
    Decidable (SaneTopo ns es) := by
  unfold SaneTopo
  infer_instance

instance instDecWFmapsParts (ns : List GraphNode) (es : List GraphEdge)
    (nm em : List (String × Nat)) : Decidable (WFmapsParts ns es nm em) := by
  unfold WFmapsParts
  infer_instance

instance instDecAdjConsistentParts (dd : Bool) (ns : List GraphNode)
    (es : List GraphEdge) : Decidable (adjConsistentParts dd ns es) := by
  unfold adjConsistentParts
  infer_instance

instance instDecWFmaps (g : Graph) : Decidable g.WFmaps := by
  unfold Graph.WFmaps
  infer_instance

instance instDecAdjConsistent (g : Graph) : Decidable g.adjConsistent := by
  unfold Graph.adjConsistent
  infer_instance

instance instDecInv (g : Graph) : Decidable g.Inv := by
  unfold Graph.Inv
  infer_instance

/-- Concrete scenario graph: undirected, nodes `"A"`, `"B"`, one edge
added as `addEdge("A", "B")`. -/
def gUndirAB : Graph :=
  buildGraph false [GraphOp.addNode (some "A") none, GraphOp.addNode (some "B") none,
    GraphOp.addEdge (NodeRef.byId "A") (NodeRef.byId "B") none]

/-- Concrete scenario graph: directed, nodes `"A"`, `"B"`, one edge
added as `addEdge("A", "B")`. -/
def gDirAB : Graph :=
  buildGraph true [GraphOp.addNode (some "A") none, GraphOp.addNode (some "B") none,
    GraphOp.addEdge (NodeRef.byId "A") (NodeRef.byId "B") none]

/-- Concrete graph: directed, nodes `"A"`, `"B"`, no edge yet. -/
def gDirAB0 : Graph :=
  buildGraph true [GraphOp.addNode (some "A") none, GraphOp.addNode (some "B") none]

/-- Concrete graph: one node `"A"` (for self-loop checks). -/
def gSelfA : Graph :=
  buildGraph false [GraphOp.addNode (some "A") none]

/-- Concrete host graph for the accessor surface: one node `"A"` with
`dataIndex = 0`, and two distinguishable record tables — the node table
maps live position `0` to storage index `5` (value `15`), the edge table
maps it to storage index `7` (value `27`). -/
def gC1 : Graph :=
  { directed := false,
    nodes := [⟨"A", 0, [], [], [], false⟩],
    edges := [],
    nodesMap := [("_EC_A", 0)],
    edgesMap := [],
    data := ⟨[5], [("value", [10, 11, 12, 13, 14, 15])], [], [], []⟩,
    edgeData := ⟨[7], [("value", [20, 21, 22, 23, 24, 25, 26, 27])], [], [], []⟩ }

/-- Concrete graph for the synchronization scenario: undirected, nodes
`"A"`, `"B"`, edge `A-B`, node table live view `[0, 1]`, edge table live
view `[0]` (tables bound, `update()` not yet run). -/
def gC4 : Graph :=
  buildGraph false [GraphOp.addNode (some "A") none, GraphOp.addNode (some "B") none,
    GraphOp.addEdge (NodeRef.byId "A") (NodeRef.byId "B") none,
    GraphOp.setData ⟨[0, 1], [], [], [], []⟩,
    GraphOp.setEdgeData ⟨[0], [], [], [], []⟩]

/-- A sequence of `addNode` calls folded over a starting graph. -/
def addNodesFold (g : Graph) (ps : List (Option String × Option Int)) : Graph :=
  ps.foldl (fun acc p => (acc.addNode p.1 p.2).1) g

/-- What `clone()` preserves: the directed flag, the node id and
`dataIndex` sequences, the edge endpoint-id pairs and the edge `dataIndex`
sequence.  (The clone's nodes and edges are freshly constructed values,
built by re-running `addNode`/`addEdge` from an empty graph, so no
structure is shared with the source.) -/
def cloneAgrees (g : Graph) : Prop :=
  g.clone.directed = g.directed ∧
  g.clone.nodes.map GraphNode.id = g.nodes.map GraphNode.id ∧
  g.clone.nodes.map GraphNode.dataIndex = g.nodes.map GraphNode.dataIndex ∧
  g.clone.edges.length = g.edges.length ∧
  (∀ j : Nat,
    (g.clone.edges.getD j default = g.edges.getD j default) ∧
    (g.clone.nodes.getD (g.clone.edges.getD j default).node1 default).id
      = (g.nodes.getD (g.edges.getD j default).node1 default).id ∧
    (g.clone.nodes.getD (g.clone.edges.getD j default).node2 default).id
      = (g.nodes.getD (g.edges.getD j default).node2 default).id ∧
    (g.clone.edges.getD j default).dataIndex = (g.edges.getD j default).dataIndex)

/-- The (id, dataIndex) seed pairs `clone()` re-adds the nodes from. -/
def clonePairs (g : Graph) : List (Option String × Option Int) :=
  g.nodes.map fun n => (some n.id, some n.dataIndex)

/-! ## Basic facts about the list primitives -/

theorem uAt_length {α : Type} (l : List α) (i : Nat) (f : α → α) :
    (updateAt l i f).length = l.length := by
  induction l generalizing i with
  | nil => rfl
  | cons x xs ih =>
      cases i with
      | zero => rfl
      | succ n => simpa [updateAt] using ih n

theorem gD_oob {α : Type} (l : List α) (i : Nat) (d : α) (h : l.length ≤ i) :
    l.getD i d = d := by
  induction l generalizing i with
  | nil => cases i <;> rfl
  | cons x xs ih =>
      cases i with
      | zero => simp at h
      | succ n =>
          simp only [List.length_cons] at h
          simpa [List.getD] using ih n (by omega)

theorem gD_mem {α : Type} (l : List α) (i : Nat) (d : α) (h : i < l.length) :
    l.getD i d ∈ l := by
  induction l generalizing i with
  | nil => simp at h
  | cons x xs ih =>
      cases i with
      | zero => simp [List.getD]
      | succ n =>
          simp only [List.length_cons] at h
          exact List.mem_cons_of_mem _ (ih n (by omega))

theorem uAt_getD_eq {α : Type} (l : List α) (i : Nat) (f : α → α) (d : α)
    (h : i < l.length) : (updateAt l i f).getD i d = f (l.getD i d) := by
  induction l generalizing i with
  | nil => simp at h
  | cons x xs ih =>
      cases i with
      | zero => rfl
      | succ n =>
          simp only [List.length_cons] at h
          simpa [updateAt, List.getD] using ih n (by omega)

theorem uAt_getD_ne {α : Type} (l : List α) (i j : Nat) (f : α → α) (d : α)
    (h : i ≠ j) : (updateAt l i f).getD j d = l.getD j d := by
  induction l generalizing i j with
  | nil => rfl
  | cons x xs ih =>
      cases i with
      | zero =>
          cases j with
          | zero => exact absurd rfl h
          | succ m => rfl
      | succ n =>
          cases j with
          | zero => rfl
          | succ m => simpa [updateAt, List.getD] using ih n m (by omega)

theorem uAt_oob {α : Type} (l : List α) (i : Nat) (f : α → α)
    (h : l.length ≤ i) : updateAt l i f = l := by
  induction l generalizing i with
  | nil => rfl
  | cons x xs ih =>
      cases i with
      | zero => simp at h
      | succ n =>
          simp only [List.length_cons] at h
          simpa [updateAt] using ih n (by omega)

theorem gD_append_lt {α : Type} (l l2 : List α) (i : Nat) (d : α)
    (h : i < l.length) : (l ++ l2).getD i d = l.getD i d := by
  induction l generalizing i with
  | nil => simp at h
  | cons x xs ih =>
      cases i with
      | zero => rfl
      | succ n =>
          simp only [List.length_cons] at h
          simpa [List.getD] using ih n (by omega)

theorem gD_append_len {α : Type} (l : List α) (a : α) (d : α) :
    (l ++ [a]).getD l.length d = a := by
  induction l with
  | nil => rfl
  | cons x xs ih => simpa [List.getD] using ih

theorem alookup_mem {β : Type} (m : List (String × β)) (k : String) (v : β)
    (h : alookup m k = some v) : (k, v) ∈ m := by
  induction m with
  | nil => simp [alookup] at h
  | cons p rest ih =>
      obtain ⟨k0, v0⟩ := p
      rw [alookup] at h
      by_cases hk : k0 = k
      · rw [if_pos hk] at h
        cases h
        subst hk
        exact List.mem_cons_self _ _
      · rw [if_neg hk] at h
        exact List.mem_cons_of_mem _ (ih h)

theorem enumPairs_map_snd {α : Type} (l : List α) (i : Nat) :
    (enumPairs i l).map Prod.snd = l := by
  induction l generalizing i with
  | nil => rfl
  | cons x xs ih => simpa [enumPairs] using ih (i + 1)

theorem enumPairs_mem {α : Type} (l : List α) (i p : Nat) (x : α) (d : α)
    (h : (p, x) ∈ enumPairs i l) :
    i ≤ p ∧ p - i < l.length ∧ l.getD (p - i) d = x := by
  induction l generalizing i with
  | nil => simp [enumPairs] at h
  | cons a xs ih =>
      simp only [enumPairs, List.mem_cons] at h
      rcases h with h | h
      · cases h
        refine ⟨Nat.le_refl _, ?_, ?_⟩
        · simp
        · simp [List.getD]
      · obtain ⟨h1, h2, h3⟩ := ih (i + 1) h
        refine ⟨by omega, by simp only [List.length_cons]; omega, ?_⟩
        have hp : p - i = (p - (i + 1)) + 1 := by omega
        rw [hp]
        simpa [List.getD] using h3

/-! ## Characterizations of the mutating operations -/

theorem generateNodeKey_inj {a b : String} (h : generateNodeKey a = generateNodeKey b) :
    a = b := by
  have h2 : ("_EC_" ++ a).data = ("_EC_" ++ b).data := congrArg String.data h
  rw [String.data_append, String.data_append] at h2
  have h3 := List.append_cancel_left h2
  cases a
  cases b
  exact congrArg String.mk h3

theorem addNode_dup (g : Graph) (id : Option String) (di : Option Int)
    (h : alookup g.nodesMap (generateNodeKey (normalizeId id di)) ≠ none) :
    g.addNode id di = (g, none) := by
  simp only [Graph.addNode]
  cases hl : alookup g.nodesMap (generateNodeKey (normalizeId id di)) with
  | none => exact absurd hl h
  | some v => rfl

theorem addNode_fresh (g : Graph) (id : Option String) (di : Option Int)
    (h : alookup g.nodesMap (generateNodeKey (normalizeId id di)) = none) :
    g.addNode id di =
      ({ g with
          nodes := g.nodes ++ [⟨normalizeId id di, di.getD (-1), [], [], [], false⟩],
          nodesMap := (generateNodeKey (normalizeId id di), g.nodes.length) :: g.nodesMap },
       some g.nodes.length) := by
  simp only [Graph.addNode, h]

theorem addEdge_unres1 (g : Graph) (r1 r2 : NodeRef) (di : Option Int)
    (h : g.resolveNode r1 = none) : g.addEdge r1 r2 di = (g, none) := by
  simp only [Graph.addEdge, h]

theorem addEdge_unres2 (g : Graph) (r1 r2 : NodeRef) (di : Option Int)
    (h : g.resolveNode r2 = none) : g.addEdge r1 r2 di = (g, none) := by
  simp only [Graph.addEdge, h]
  cases g.resolveNode r1 <;> rfl

theorem addEdge_dup (g : Graph) (r1 r2 : NodeRef) (di : Option Int) (i1 i2 e : Nat)
    (h1 : g.resolveNode r1 = some i1) (h2 : g.resolveNode r2 = some i2)
    (h : alookup g.edgesMap
      ((g.nodes.getD i1 default).id ++ "-" ++ (g.nodes.getD i2 default).id) = some e) :
    g.addEdge r1 r2 di = (g, none) := by
  simp only [Graph.addEdge, h1, h2, h]

theorem addEdge_new (g : Graph) (r1 r2 : NodeRef) (di : Option Int) (i1 i2 : Nat)
    (h1 : g.resolveNode r1 = some i1) (h2 : g.resolveNode r2 = some i2)
    (h : alookup g.edgesMap
      ((g.nodes.getD i1 default).id ++ "-" ++ (g.nodes.getD i2 default).id) = none) :
    g.addEdge r1 r2 di = (g.addEdgeCore i1 i2 di, some g.edges.length) := by
  simp only [Graph.addEdge, h1, h2, h]

theorem core_edges (g : Graph) (i1 i2 : Nat) (di : Option Int) :
    (g.addEdgeCore i1 i2 di).edges = g.edges ++ [⟨i1, i2, di.getD (-1)⟩] := rfl

theorem core_edgesMap (g : Graph) (i1 i2 : Nat) (di : Option Int) :
    (g.addEdgeCore i1 i2 di).edgesMap =
      ((g.nodes.getD i1 default).id ++ "-" ++ (g.nodes.getD i2 default).id,
        g.edges.length) :: g.edgesMap := rfl

theorem core_directed (g : Graph) (i1 i2 : Nat) (di : Option Int) :
    (g.addEdgeCore i1 i2 di).directed = g.directed := rfl

theorem core_nodesMap (g : Graph) (i1 i2 : Nat) (di : Option Int) :
    (g.addEdgeCore i1 i2 di).nodesMap = g.nodesMap := rfl

theorem uAt_getD_field {α β : Type} (l : List α) (i j : Nat) (f : α → α) (d : α)
    (proj : α → β) (hf : ∀ a, proj (f a) = proj a) :
    proj ((updateAt l i f).getD j d) = proj (l.getD j d) := by
  by_cases hij : i = j
  · subst hij
    by_cases hb : i < l.length
    · rw [uAt_getD_eq l i f d hb, hf]
    · rw [uAt_oob l i f (by omega)]
  · rw [uAt_getD_ne l i j f d hij]

theorem aad_length (ns : List GraphNode) (dd : Bool) (i1 i2 e : Nat) :
    (adjAfterDirected ns dd i1 i2 e).length = ns.length := by
  unfold adjAfterDirected
  by_cases hd : dd = true
  · rw [if_pos hd, uAt_length, uAt_length]
  · rw [if_neg hd]

theorem aad_proj {β : Type} (ns : List GraphNode) (dd : Bool) (i1 i2 e p : Nat)
    (proj : GraphNode → β)
    (hOut : ∀ n, proj (pushOut e n) = proj n) (hIn : ∀ n, proj (pushIn e n) = proj n) :
    proj ((adjAfterDirected ns dd i1 i2 e).getD p default) = proj (ns.getD p default) := by
  unfold adjAfterDirected
  by_cases hd : dd = true
  · rw [if_pos hd, uAt_getD_field _ _ _ _ _ proj hIn, uAt_getD_field _ _ _ _ _ proj hOut]
  · rw [if_neg hd]

theorem aad_out (ns : List GraphNode) (dd : Bool) (i1 i2 e p : Nat)
    (hb1 : i1 < ns.length) :
    ((adjAfterDirected ns dd i1 i2 e).getD p default).outEdges
      = (ns.getD p default).outEdges ++ (if dd = true ∧ p = i1 then [e] else []) := by
  unfold adjAfterDirected
  by_cases hd : dd = true
  · rw [if_pos hd, uAt_getD_field _ _ _ (pushIn e) _ GraphNode.outEdges (fun a => rfl)]
    by_cases hp : p = i1
    · subst hp
      rw [uAt_getD_eq _ _ _ _ hb1]
      simp [pushOut, hd]
    · rw [uAt_getD_ne _ _ _ _ _ (by omega)]
      simp [hd, hp]
  · rw [if_neg hd]
    simp [hd]

theorem aad_in (ns : List GraphNode) (dd : Bool) (i1 i2 e p : Nat)
    (hb2 : i2 < ns.length) :
    ((adjAfterDirected ns dd i1 i2 e).getD p default).inEdges
      = (ns.getD p default).inEdges ++ (if dd = true ∧ p = i2 then [e] else []) := by
  unfold adjAfterDirected
  by_cases hd : dd = true
  · rw [if_pos hd]
    by_cases hp : p = i2
    · subst hp
      rw [uAt_getD_eq _ _ _ _ (by rw [uAt_length]; exact hb2)]
      rw [show ∀ a, (pushIn e a).inEdges = a.inEdges ++ [e] from fun a => rfl]
      rw [uAt_getD_field _ _ _ (pushOut e) _ GraphNode.inEdges (fun a => rfl)]
      simp [hd]
    · rw [uAt_getD_ne _ _ _ _ _ (by omega)]
      rw [uAt_getD_field _ _ _ (pushOut e) _ GraphNode.inEdges (fun a => rfl)]
      simp [hd, hp]
  · rw [if_neg hd]
    simp [hd]

theorem core_nodes_length (g : Graph) (i1 i2 : Nat) (di : Option Int) :
    (g.addEdgeCore i1 i2 di).nodes.length = g.nodes.length := by
  simp only [Graph.addEdgeCore]
  by_cases hne : i1 ≠ i2
  · rw [if_pos hne, uAt_length, uAt_length, aad_length]
  · rw [if_neg hne, uAt_length, aad_length]

theorem core_node_proj {β : Type} (g : Graph) (i1 i2 : Nat) (di : Option Int) (p : Nat)
    (proj : GraphNode → β)
    (h1 : ∀ n, proj (pushOut g.edges.length n) = proj n)
    (h2 : ∀ n, proj (pushIn g.edges.length n) = proj n)
    (h3 : ∀ n, proj (pushEdge g.edges.length n) = proj n) :
    proj ((g.addEdgeCore i1 i2 di).nodes.getD p default)
      = proj (g.nodes.getD p default) := by
  simp only [Graph.addEdgeCore]
  by_cases hne : i1 ≠ i2
  · rw [if_pos hne, uAt_getD_field _ _ _ _ _ proj h3, uAt_getD_field _ _ _ _ _ proj h3,
      aad_proj _ _ _ _ _ _ proj h1 h2]
  · rw [if_neg hne, uAt_getD_field _ _ _ _ _ proj h3,
      aad_proj _ _ _ _ _ _ proj h1 h2]

theorem core_node_id (g : Graph) (i1 i2 : Nat) (di : Option Int) (p : Nat) :
    ((g.addEdgeCore i1 i2 di).nodes.getD p default).id = (g.nodes.getD p default).id :=
  core_node_proj g i1 i2 di p GraphNode.id (fun _ => rfl) (fun _ => rfl) (fun _ => rfl)

theorem core_node_dataIndex (g : Graph) (i1 i2 : Nat) (di : Option Int) (p : Nat) :
    ((g.addEdgeCore i1 i2 di).nodes.getD p default).dataIndex
      = (g.nodes.getD p default).dataIndex :=
  core_node_proj g i1 i2 di p GraphNode.dataIndex (fun _ => rfl) (fun _ => rfl) (fun _ => rfl)

theorem core_node_edges (g : Graph) (i1 i2 : Nat) (di : Option Int) (p : Nat)
    (hb1 : i1 < g.nodes.length) (hb2 : i2 < g.nodes.length) :
    ((g.addEdgeCore i1 i2 di).nodes.getD p default).edges
      = (g.nodes.getD p default).edges
        ++ (if p = i1 ∨ p = i2 then [g.edges.length] else []) := by
  simp only [Graph.addEdgeCore]
  by_cases hne : i1 ≠ i2
  · rw [if_pos hne]
    by_cases hp1 : p = i1
    · rw [uAt_getD_ne _ _ _ _ _ (by omega)]
      subst hp1
      rw [uAt_getD_eq _ _ _ _ (by rw [aad_length]; exact hb1)]
      rw [show ∀ a, (pushEdge g.edges.length a).edges = a.edges ++ [g.edges.length]
        from fun a => rfl]
      rw [aad_proj _ _ _ _ _ _ GraphNode.edges (fun a => rfl) (fun a => rfl)]
      simp
    · by_cases hp2 : p = i2
      · subst hp2
        rw [uAt_getD_eq _ _ _ _ (by rw [uAt_length, aad_length]; exact hb2)]
        rw [show ∀ a, (pushEdge g.edges.length a).edges = a.edges ++ [g.edges.length]
          from fun a => rfl]
        rw [uAt_getD_ne _ _ _ _ _ (by omega)]
        rw [aad_proj _ _ _ _ _ _ GraphNode.edges (fun a => rfl) (fun a => rfl)]
        simp
      · rw [uAt_getD_ne _ _ _ _ _ (by omega),
          uAt_getD_ne _ _ _ _ _ (by omega),
          aad_proj _ _ _ _ _ _ GraphNode.edges (fun a => rfl) (fun a => rfl)]
        simp [hp1, hp2]
  · rw [if_neg hne]
    have h12 : i1 = i2 := not_not.mp hne
    by_cases hp1 : p = i1
    · subst hp1
      rw [uAt_getD_eq _ _ _ _ (by rw [aad_length]; exact hb1)]
      rw [show ∀ a, (pushEdge g.edges.length a).edges = a.edges ++ [g.edges.length]
        from fun a => rfl]
      rw [aad_proj _ _ _ _ _ _ GraphNode.edges (fun a => rfl) (fun a => rfl)]
      simp
    · rw [uAt_getD_ne _ _ _ _ _ (by omega),
        aad_proj _ _ _ _ _ _ GraphNode.edges (fun a => rfl) (fun a => rfl)]
      have hp2 : ¬ p = i2 := by omega
      simp [hp1, hp2]

theorem core_node_out (g : Graph) (i1 i2 : Nat) (di : Option Int) (p : Nat)
    (hb1 : i1 < g.nodes.length) :
    ((g.addEdgeCore i1 i2 di).nodes.getD p default).outEdges
      = (g.nodes.getD p default).outEdges
        ++ (if g.directed = true ∧ p = i1 then [g.edges.length] else []) := by
  simp only [Graph.addEdgeCore]
  by_cases hne : i1 ≠ i2
  · rw [if_pos hne,
      uAt_getD_field _ _ _ (pushEdge g.edges.length) _ GraphNode.outEdges (fun a => rfl),
      uAt_getD_field _ _ _ (pushEdge g.edges.length) _ GraphNode.outEdges (fun a => rfl),
      aad_out _ _ _ _ _ _ hb1]
  · rw [if_neg hne,
      uAt_getD_field _ _ _ (pushEdge g.edges.length) _ GraphNode.outEdges (fun a => rfl),
      aad_out _ _ _ _ _ _ hb1]

theorem core_node_in (g : Graph) (i1 i2 : Nat) (di : Option Int) (p : Nat)
    (hb2 : i2 < g.nodes.length) :
    ((g.addEdgeCore i1 i2 di).nodes.getD p default).inEdges
      = (g.nodes.getD p default).inEdges
        ++ (if g.directed = true ∧ p = i2 then [g.edges.length] else []) := by
  simp only [Graph.addEdgeCore]
  by_cases hne : i1 ≠ i2
  · rw [if_pos hne,
      uAt_getD_field _ _ _ (pushEdge g.edges.length) _ GraphNode.inEdges (fun a => rfl),
      uAt_getD_field _ _ _ (pushEdge g.edges.length) _ GraphNode.inEdges (fun a => rfl),
      aad_in _ _ _ _ _ _ hb2]
  · rw [if_neg hne,
      uAt_getD_field _ _ _ (pushEdge g.edges.length) _ GraphNode.inEdges (fun a => rfl),
      aad_in _ _ _ _ _ _ hb2]

theorem resolve_bound (g : Graph) (r : NodeRef) (i : Nat)
    (hm : ∀ p ∈ g.nodesMap, p.2 < g.nodes.length)
    (h : g.resolveNode r = some i) : i < g.nodes.length := by
  cases r with
  | byIndex n =>
      simp only [Graph.resolveNode] at h
      by_cases hb : n < g.nodes.length
      · rw [if_pos hb] at h
        cases h
        exact hb
      · rw [if_neg hb] at h
        exact hm _ (alookup_mem _ _ _ h)
  | byId s => exact hm _ (alookup_mem _ _ _ h)

theorem addEdge_some (g : Graph) (r1 r2 : NodeRef) (di : Option Int) (g2 : Graph)
    (j i1 i2 : Nat)
    (h1 : g.resolveNode r1 = some i1) (h2 : g.resolveNode r2 = some i2)
    (hadd : g.addEdge r1 r2 di = (g2, some j)) :
    g2 = g.addEdgeCore i1 i2 di ∧ j = g.edges.length ∧
      alookup g.edgesMap
        ((g.nodes.getD i1 default).id ++ "-" ++ (g.nodes.getD i2 default).id) = none := by
  cases hkey : alookup g.edgesMap
      ((g.nodes.getD i1 default).id ++ "-" ++ (g.nodes.getD i2 default).id) with
  | some e =>
      rw [addEdge_dup g r1 r2 di i1 i2 e h1 h2 hkey] at hadd
      injection hadd with hg hj
      exact Option.noConfusion hj
  | none =>
      rw [addEdge_new g r1 r2 di i1 i2 h1 h2 hkey] at hadd
      injection hadd with hg hj
      injection hj with hj2
      exact ⟨hg.symm, hj2.symm, rfl⟩

/-! ## Claim C2: undirected duplicate addEdge -/

/-- Claim C2 counterexample: in the spec scenario (undirected graph, nodes
`"A"`, `"B"`, `addEdge("A","B")` then `addEdge("B","A")`), the second call
is not a no-op — it returns a second edge and `edges.length` becomes `2`,
because `addEdge` deduplicates only the exact ordered key. -/
theorem c2_counterexample :
    (gUndirAB.addEdge (NodeRef.byId "B") (NodeRef.byId "A") none).2 = some 1 ∧
    (gUndirAB.addEdge (NodeRef.byId "B") (NodeRef.byId "A") none).1.edges.length = 2 := by
  constructor <;> decide

/-- Claim C2 (amended): `addEdge` deduplicates by the exact ordered id key
`n1.id + '-' + n2.id` regardless of directedness: when that key is already
indexed the call is a no-op returning nothing, and when it is absent (as
for the reversed order of a previously added undirected edge, whose key
was stored in insertion order) a new edge is appended. -/
theorem c2_addEdge_ordered_key_dedup (g : Graph) (r1 r2 : NodeRef) (di : Option Int)
    (i1 i2 : Nat)
    (h1 : g.resolveNode r1 = some i1) (h2 : g.resolveNode r2 = some i2) :
    (∀ e, alookup g.edgesMap
        ((g.nodes.getD i1 default).id ++ "-" ++ (g.nodes.getD i2 default).id) = some e →
      g.addEdge r1 r2 di = (g, none)) ∧
    (alookup g.edgesMap
        ((g.nodes.getD i1 default).id ++ "-" ++ (g.nodes.getD i2 default).id) = none →
      (g.addEdge r1 r2 di).1.edges.length = g.edges.length + 1) := by
  constructor
  · intro e he
    exact addEdge_dup g r1 r2 di i1 i2 e h1 h2 he
  · intro hn
    rw [addEdge_new g r1 r2 di i1 i2 h1 h2 hn]
    show (g.addEdgeCore i1 i2 di).edges.length = g.edges.length + 1
    rw [core_edges]
    simp

/-- Claim C2 witness: the amended statement applied to the concrete
scenario graph (second call reversed: the ordered key `"B-A"` is absent,
so a second edge is appended). -/
theorem c2_witness :
    gUndirAB.resolveNode (NodeRef.byId "B") = some 1 ∧
    gUndirAB.resolveNode (NodeRef.byId "A") = some 0 ∧
    ((∀ e, alookup gUndirAB.edgesMap
        ((gUndirAB.nodes.getD 1 default).id ++ "-" ++ (gUndirAB.nodes.getD 0 default).id)
          = some e →
      gUndirAB.addEdge (NodeRef.byId "B") (NodeRef.byId "A") none = (gUndirAB, none)) ∧
    (alookup gUndirAB.edgesMap
        ((gUndirAB.nodes.getD 1 default).id ++ "-" ++ (gUndirAB.nodes.getD 0 default).id)
          = none →
      (gUndirAB.addEdge (NodeRef.byId "B") (NodeRef.byId "A") none).1.edges.length
        = gUndirAB.edges.length + 1)) :=
  ⟨by decide, by decide,
    c2_addEdge_ordered_key_dedup gUndirAB (NodeRef.byId "B") (NodeRef.byId "A") none 1 0
      (by decide) (by decide)⟩

/-! ## Claim C7: getEdge lookup semantics -/

theorem alookup_cons_eq {β : Type} (k : String) (v : β) (m : List (String × β)) :
    alookup ((k, v) :: m) k = some v := by
  simp [alookup]

theorem alookup_cons_ne {β : Type} (k key : String) (v : β) (m : List (String × β))
    (h : k ≠ key) : alookup ((k, v) :: m) key = alookup m key := by
  simp [alookup, h]

/-- Claim C7: after a successful `addEdge(n1, n2)`, `getEdge` (taking a
node or an id on each side) finds the edge under the ordered argument pair
`(n1, n2)`; under the reversed pair `(n2, n1)` — when the reversed key is
not separately indexed and differs from the stored one — a directed graph
finds nothing while an undirected graph falls back to the stored ordered
key and returns the same edge. -/
theorem c7_getEdge_ordered_lookup (g : Graph) (r1 r2 : NodeRef) (di : Option Int)
    (g2 : Graph) (j i1 i2 : Nat)
    (h1 : g.resolveNode r1 = some i1) (h2 : g.resolveNode r2 = some i2)
    (hadd : g.addEdge r1 r2 di = (g2, some j)) :
    g2.getEdge (EdgeEnd.id ((g.nodes.getD i1 default).id))
        (EdgeEnd.id ((g.nodes.getD i2 default).id)) = some j ∧
    g2.getEdge (EdgeEnd.node i1) (EdgeEnd.node i2) = some j ∧
    (alookup g.edgesMap
        ((g.nodes.getD i2 default).id ++ "-" ++ (g.nodes.getD i1 default).id) = none →
      (g.nodes.getD i2 default).id ++ "-" ++ (g.nodes.getD i1 default).id
        ≠ (g.nodes.getD i1 default).id ++ "-" ++ (g.nodes.getD i2 default).id →
      g2.getEdge (EdgeEnd.id ((g.nodes.getD i2 default).id))
          (EdgeEnd.id ((g.nodes.getD i1 default).id))
        = (if g.directed = true then none else some j)) := by
  obtain ⟨hg2, hj, hkey⟩ := addEdge_some g r1 r2 di g2 j i1 i2 h1 h2 hadd
  subst hg2
  subst hj
  have hid1 : ((g.addEdgeCore i1 i2 di).nodes.getD i1 default).id
      = (g.nodes.getD i1 default).id := core_node_id g i1 i2 di i1
  have hid2 : ((g.addEdgeCore i1 i2 di).nodes.getD i2 default).id
      = (g.nodes.getD i2 default).id := core_node_id g i1 i2 di i2
  have hmap := core_edgesMap g i1 i2 di
  have hdd := core_directed g i1 i2 di
  refine ⟨?_, ?_, ?_⟩
  · show Graph.getEdge _ _ _ = _
    rw [Graph.getEdge]
    simp only [Graph.endId, hmap, hdd, alookup_cons_eq]
    by_cases hd : g.directed = true
    · rw [if_pos hd]
    · rw [if_neg hd]
  · show Graph.getEdge _ _ _ = _
    rw [Graph.getEdge]
    simp only [Graph.endId, hid1, hid2, hmap, hdd, alookup_cons_eq]
    by_cases hd : g.directed = true
    · rw [if_pos hd]
    · rw [if_neg hd]
  · intro hrev hne
    show Graph.getEdge _ _ _ = _
    rw [Graph.getEdge]
    simp only [Graph.endId, hmap, hdd]
    rw [alookup_cons_ne _ _ _ _ (fun h => hne h.symm), hrev]
    by_cases hd : g.directed = true
    · rw [if_pos hd, if_pos hd]
    · rw [if_neg hd, if_neg hd, alookup_cons_eq]

/-- Claim C7 witness: the theorem applied to the directed two-node graph:
adding `"A"→"B"` to `gDirAB0` yields `gDirAB` and edge `0`; the ordered
lookup finds it and the reversed lookup finds nothing (the graph being
directed). -/
theorem c7_witness :
    gDirAB0.addEdge (NodeRef.byId "A") (NodeRef.byId "B") none = (gDirAB, some 0) ∧
    (gDirAB.getEdge (EdgeEnd.id ((gDirAB0.nodes.getD 0 default).id))
        (EdgeEnd.id ((gDirAB0.nodes.getD 1 default).id)) = some 0 ∧
      gDirAB.getEdge (EdgeEnd.node 0) (EdgeEnd.node 1) = some 0 ∧
      (alookup gDirAB0.edgesMap
          ((gDirAB0.nodes.getD 1 default).id ++ "-" ++ (gDirAB0.nodes.getD 0 default).id)
            = none →
        (gDirAB0.nodes.getD 1 default).id ++ "-" ++ (gDirAB0.nodes.getD 0 default).id
          ≠ (gDirAB0.nodes.getD 0 default).id ++ "-" ++ (gDirAB0.nodes.getD 1 default).id →
        gDirAB.getEdge (EdgeEnd.id ((gDirAB0.nodes.getD 1 default).id))
            (EdgeEnd.id ((gDirAB0.nodes.getD 0 default).id))
          = (if gDirAB0.directed = true then none else some 0))) :=
  ⟨by decide,
    c7_getEdge_ordered_lookup gDirAB0 (NodeRef.byId "A") (NodeRef.byId "B") none gDirAB 0 0 1
      (by decide) (by decide) (by decide)⟩

/-! ## Claim C9: self-loop recorded once -/

theorem count_eq_zero_of_bound (l : List Nat) (m : Nat)
    (hb : ∀ x ∈ l, x < m) : l.count m = 0 := by
  rw [List.count_eq_zero]
  intro hmem
  exact absurd (hb m hmem) (by omega)

/-- Claim C9: for a node already in the graph (with in-range adjacency
bookkeeping), a successful `addEdge(n, n)` appends a self-loop edge (both
endpoints the node itself) that occurs exactly once in `n.edges`. -/
theorem c9_self_loop_counted_once (g : Graph) (r : NodeRef) (di : Option Int)
    (g2 : Graph) (j i : Nat)
    (hres : g.resolveNode r = some i)
    (hb : i < g.nodes.length)
    (hbound : ∀ x ∈ (g.nodes.getD i default).edges, x < g.edges.length)
    (hadd : g.addEdge r r di = (g2, some j)) :
    (g2.edges.getD j default).node1 = i ∧
    (g2.edges.getD j default).node2 = i ∧
    (g2.nodes.getD i default).edges.count j = 1 := by
  obtain ⟨hg2, hj, hkey⟩ := addEdge_some g r r di g2 j i i hres hres hadd
  subst hg2
  subst hj
  have he := core_edges g i i di
  have hnew : (g.addEdgeCore i i di).edges.getD g.edges.length default
      = ⟨i, i, di.getD (-1)⟩ := by
    rw [he]
    exact gD_append_len _ _ _
  refine ⟨by rw [hnew], by rw [hnew], ?_⟩
  rw [core_node_edges g i i di i hb hb]
  rw [if_pos (Or.inl rfl)]
  rw [List.count_append]
  rw [count_eq_zero_of_bound _ _ hbound]
  simp

/-- Claim C9 witness: a self-loop `addEdge("A","A")` on the one-node graph
`gSelfA`; the new edge is a self-loop counted once in the node's list. -/
theorem c9_witness :
    gSelfA.resolveNode (NodeRef.byId "A") = some 0 ∧
    ((gSelfA.addEdge (NodeRef.byId "A") (NodeRef.byId "A") none).1.edges.getD 0
        default).node1 = 0 ∧
    ((gSelfA.addEdge (NodeRef.byId "A") (NodeRef.byId "A") none).1.edges.getD 0
        default).node2 = 0 ∧
    (((gSelfA.addEdge (NodeRef.byId "A") (NodeRef.byId "A") none).1.nodes.getD 0
        default).edges.count 0 = 1) :=
  ⟨by decide,
    (c9_self_loop_counted_once gSelfA (NodeRef.byId "A") none
      (gSelfA.addEdge (NodeRef.byId "A") (NodeRef.byId "A") none).1 0 0
      (by decide) (by decide) (by decide) (by decide)).1,
    (c9_self_loop_counted_once gSelfA (NodeRef.byId "A") none
      (gSelfA.addEdge (NodeRef.byId "A") (NodeRef.byId "A") none).1 0 0
      (by decide) (by decide) (by decide) (by decide)).2.1,
    (c9_self_loop_counted_once gSelfA (NodeRef.byId "A") none
      (gSelfA.addEdge (NodeRef.byId "A") (NodeRef.byId "A") none).1 0 0
      (by decide) (by decide) (by decide) (by decide)).2.2⟩

/-! ## Claim C1: which record table the accessor mixins delegate to -/

/-- Claim C1 evaluated at the failing input: with the node table answering
storage index `5` / value `15` and the edge table `7` / `27`, the accessor
surface attached to `GraphNode` (source line 461) reads the host graph's
EDGE table, and the one attached to `GraphEdge` (source line 460) reads
the NODE table — the two `createGraphDataProxyMixin` calls are mixed into
the opposite classes, contradicting the claim (and the file's own
`GetDataName` type and `getModel` methods, which route Node→`data`,
Edge→`edgeData`). -/
theorem c1_proxy_tables_swapped :
    graphNodeProxy.getRawIndex gC1 0 = some 7 ∧
    graphEdgeProxy.getRawIndex gC1 0 = some 5 ∧
    gC1.data.getRawIndexN 0 = some 5 ∧
    gC1.edgeData.getRawIndexN 0 = some 7 ∧
    graphNodeProxy.getValue gC1 0 none = some 27 ∧
    graphEdgeProxy.getValue gC1 0 none = some 15 := by
  decide

/-! ## Claim C4: after update, live edges have live endpoints -/

theorem gD_map {α β : Type} (f : α → β) (l : List α) (j : Nat) (d : α) :
    (l.map f).getD j (f d) = f (l.getD j d) := by
  induction l generalizing j with
  | nil => cases j <;> rfl
  | cons x xs ih =>
      cases j with
      | zero => rfl
      | succ n => simpa [List.getD] using ih n

theorem aE_proj {β : Type} (ps : List (Nat × Nat)) (es : List GraphEdge) (j : Nat)
    (proj : GraphEdge → β)
    (hp : ∀ e pos, proj { e with dataIndex := pos } = proj e) :
    proj ((assignEdgeDataIdx es ps).getD j default) = proj (es.getD j default) := by
  induction ps generalizing es with
  | nil => rfl
  | cons pr rest ih =>
      obtain ⟨pos, raw⟩ := pr
      rw [assignEdgeDataIdx, ih]
      exact uAt_getD_field _ _ _ _ _ proj (fun a => hp a _)

theorem aE_live_src (ps : List (Nat × Nat)) (es : List GraphEdge) (j : Nat)
    (h : 0 ≤ ((assignEdgeDataIdx es ps).getD j default).dataIndex) :
    (∃ pr ∈ ps, pr.2 = j) ∨ 0 ≤ (es.getD j default).dataIndex := by
  induction ps generalizing es with
  | nil => exact Or.inr h
  | cons pr rest ih =>
      obtain ⟨pos, raw⟩ := pr
      rw [assignEdgeDataIdx] at h
      rcases ih _ h with h1 | h2
      · obtain ⟨q, hq1, hq2⟩ := h1
        exact Or.inl ⟨q, List.mem_cons_of_mem _ hq1, hq2⟩
      · by_cases hj : raw = j
        · exact Or.inl ⟨(pos, raw), List.mem_cons_self _ _, hj⟩
        · rw [uAt_getD_ne _ _ _ _ _ hj] at h2
          exact Or.inr h2

theorem enumPairs_snd_mem (l : List Nat) (pr : Nat × Nat) (h : pr ∈ enumPairs 0 l) :
    pr.2 ∈ l := by
  have h2 : pr.2 ∈ (enumPairs 0 l).map Prod.snd := List.mem_map_of_mem _ h
  rwa [enumPairs_map_snd] at h2

theorem filterSelf_mem (t : RecordTable) (pred : Nat → Bool) (j : Nat)
    (h : j ∈ (t.filterSelf pred).rawIndices) :
    ∃ p, p < t.rawIndices.length ∧ pred p = true ∧ t.rawIndices.getD p 0 = j := by
  simp only [RecordTable.filterSelf] at h
  obtain ⟨pr, hpr, hsnd⟩ := List.mem_map.mp h
  obtain ⟨he, hpred⟩ := List.mem_filter.mp hpr
  obtain ⟨q, x⟩ := pr
  obtain ⟨h1, h2, h3⟩ := enumPairs_mem t.rawIndices 0 q x 0 he
  rw [Nat.sub_zero] at h2 h3
  exact ⟨q, h2, by simpa using hpred, by rw [h3]; exact hsnd⟩

/-- Claim C4: after `update()`, every edge whose `dataIndex` is `≥ 0` has
both endpoint nodes with `dataIndex ≥ 0` — the edge table is re-filtered
against the freshly assigned node positions before edge positions are
assigned, so no edge is live while either endpoint is not. -/
theorem c4_update_live_edge_endpoints (g : Graph) (j : Nat)
    (h : 0 ≤ ((g.update).edges.getD j default).dataIndex) :
    0 ≤ ((g.update).nodes.getD ((g.update).edges.getD j default).node1 default).dataIndex ∧
    0 ≤ ((g.update).nodes.getD ((g.update).edges.getD j default).node2 default).dataIndex := by
  have hnodes : (g.update).nodes = g.updatedNodes := rfl
  have hedges : (g.update).edges
      = assignEdgeDataIdx (g.edges.map fun e => { e with dataIndex := -1 })
          (enumPairs 0 ((g.edgeData.filterSelf (g.updatePred g.updatedNodes)).rawIndices)) :=
    rfl
  have hreset : ∀ k, (g.edges.map fun e => { e with dataIndex := -1 }).getD k default
      = { g.edges.getD k default with dataIndex := -1 } :=
    fun k => gD_map _ g.edges k default
  have hn1 : ((g.update).edges.getD j default).node1 = (g.edges.getD j default).node1 := by
    rw [hedges, aE_proj _ _ _ GraphEdge.node1 (fun e pos => rfl), hreset]
  have hn2 : ((g.update).edges.getD j default).node2 = (g.edges.getD j default).node2 := by
    rw [hedges, aE_proj _ _ _ GraphEdge.node2 (fun e pos => rfl), hreset]
  rw [hedges] at h
  rcases aE_live_src _ _ _ h with hsrc | hbad
  · obtain ⟨pr, hmem, hj⟩ := hsrc
    have hraw : pr.2 ∈ (g.edgeData.filterSelf (g.updatePred g.updatedNodes)).rawIndices :=
      enumPairs_snd_mem _ _ hmem
    rw [hj] at hraw
    obtain ⟨p, hp, hpred, hgetD⟩ := filterSelf_mem _ _ _ hraw
    have hrawAt : g.edgeData.rawAt p = j := hgetD
    rw [Graph.updatePred] at hpred
    simp only [hrawAt] at hpred
    rw [Bool.and_eq_true] at hpred
    obtain ⟨hd1, hd2⟩ := hpred
    rw [hnodes, hn1, hn2]
    exact ⟨of_decide_eq_true hd1, of_decide_eq_true hd2⟩
  · rw [hreset] at hbad
    simp at hbad

/-- Claim C4 witness: the theorem applied to the bound two-node one-edge
graph `gC4`: after `update()` edge `0` is live, so both its endpoints are. -/
theorem c4_witness :
    0 ≤ (((gC4.update).edges.getD 0 default).dataIndex) ∧
    (0 ≤ ((gC4.update).nodes.getD ((gC4.update).edges.getD 0 default).node1 default).dataIndex ∧
      0 ≤ ((gC4.update).nodes.getD ((gC4.update).edges.getD 0 default).node2 default).dataIndex) :=
  ⟨by decide, c4_update_live_edge_endpoints gC4 0 (by decide)⟩

/-! ## Claim C8: a true callback stops the whole traversal -/

theorem mem_of_mem_dropLast {α : Type} (l : List α) (x : α) (h : x ∈ l.dropLast) :
    x ∈ l :=
  (List.dropLast_sublist l).subset h

theorem bfsVisit_allFalse (es : List GraphEdge) (cb : Nat → Option Nat → Bool) (cur : Nat) :
    ∀ (lst : List Nat) (ns : List GraphNode) (q : List Nat) (acc : List (Nat × Option Nat))
      (ns2 : List GraphNode) (q2 : List Nat) (acc2 : List (Nat × Option Nat)) (stop : Bool),
    bfsVisit es cb cur lst ns q acc = (ns2, q2, acc2, stop) →
    (∀ p ∈ acc, cb p.1 p.2 = false) →
    (stop = false → ∀ p ∈ acc2, cb p.1 p.2 = false) ∧
    (∀ p ∈ acc2.dropLast, cb p.1 p.2 = false) := by
  intro lst
  induction lst with
  | nil =>
      intro ns q acc ns2 q2 acc2 stop heq hacc
      rw [bfsVisit] at heq
      injection heq with h1 hrest
      injection hrest with h2 hrest2
      injection hrest2 with h3 h4
      subst h3
      exact ⟨fun _ => hacc, fun p hp => hacc p (mem_of_mem_dropLast _ _ hp)⟩
  | cons eIdx rest ih =>
      intro ns q acc ns2 q2 acc2 stop heq hacc
      rw [bfsVisit] at heq
      by_cases hv : ((ns.getD (if (es.getD eIdx default).node1 = cur
          then (es.getD eIdx default).node2 else (es.getD eIdx default).node1)
          default).visited) = true
      · rw [if_pos hv] at heq
        exact ih ns q acc ns2 q2 acc2 stop heq hacc
      · rw [if_neg hv] at heq
        by_cases hcb : cb (if (es.getD eIdx default).node1 = cur
            then (es.getD eIdx default).node2 else (es.getD eIdx default).node1)
            (some cur) = true
        · rw [if_pos hcb] at heq
          injection heq with h1 hrest
          injection hrest with h2 hrest2
          injection hrest2 with h3 h4
          subst h3
          refine ⟨fun hstop => absurd h4.symm (by simp [hstop]), ?_⟩
          rw [List.dropLast_concat]
          exact fun p hp => hacc p hp
        · rw [if_neg hcb] at heq
          refine ih _ _ _ ns2 q2 acc2 stop heq ?_
          intro p hp
          rcases List.mem_append.mp hp with hold | hnew
          · exact hacc p hold
          · rcases List.mem_singleton.mp hnew with rfl
            simpa using hcb

theorem bfsLoop_allFalse (es : List GraphEdge) (d : Direction)
    (cb : Nat → Option Nat → Bool) :
    ∀ (fuel : Nat) (ns : List GraphNode) (q : List Nat) (acc : List (Nat × Option Nat))
      (tr : List (Nat × Option Nat)),
    bfsLoop es d cb fuel ns q acc = some tr →
    (∀ p ∈ acc, cb p.1 p.2 = false) →
    ∀ p ∈ tr.dropLast, cb p.1 p.2 = false := by
  intro fuel
  induction fuel with
  | zero =>
      intro ns q acc tr heq hacc
      rw [bfsLoop] at heq
      exact Option.noConfusion heq
  | succ fuel ih =>
      intro ns q acc tr heq hacc
      cases q with
      | nil =>
          rw [bfsLoop] at heq
          injection heq with h1
          subst h1
          exact fun p hp => hacc p (mem_of_mem_dropLast _ _ hp)
      | cons cur qrest =>
          rw [bfsLoop] at heq
          rcases hv : bfsVisit es cb cur ((ns.getD cur default).adj d) ns qrest acc with
            ⟨ns2, q2, acc2, stop⟩
          rw [hv] at heq
          obtain ⟨hcont, hlast⟩ :=
            bfsVisit_allFalse es cb cur _ ns qrest acc ns2 q2 acc2 stop hv hacc
          cases stop with
          | true =>
              simp only at heq
              injection heq with h1
              subst h1
              exact hlast
          | false =>
              simp only at heq
              exact ih ns2 q2 acc2 tr heq (hcont rfl)

/-- Claim C8: in `breadthFirstTraverse`, once the visit callback returns
`true` no further node is visited — in every completed trace, every call
except possibly the last returned `false` (a `true` on the start node
yields the one-element trace, and a `true` inside the queue loop ends the
trace immediately even with nodes still queued). -/
theorem c8_bfs_short_circuit (g : Graph) (cb : Nat → Option Nat → Bool)
    (start : GNodeRef) (d : Direction) (fuel : Nat) (tr : List (Nat × Option Nat))
    (h : g.breadthFirstTraverse cb start d fuel = some tr) :
    ∀ p ∈ tr.dropLast, cb p.1 p.2 = false := by
  unfold Graph.breadthFirstTraverse at h
  cases hres : g.resolveStart start with
  | none =>
      rw [hres] at h
      injection h with h1
      subst h1
      intro p hp
      simp at hp
  | some s =>
      rw [hres] at h
      have h2 : (if cb s none = true then some [(s, (none : Option Nat))]
          else bfsLoop g.edges d cb fuel (g.nodes.map fun n => { n with visited := false })
            [s] [(s, none)]) = some tr := h
      by_cases hcb : cb s none = true
      · rw [if_pos hcb] at h2
        injection h2 with h1
        subst h1
        intro p hp
        simp at hp
      · rw [if_neg hcb] at h2
        refine bfsLoop_allFalse _ _ _ _ _ _ _ _ h2 ?_
        intro p hp
        rcases List.mem_singleton.mp hp with rfl
        simpa using hcb

/-- Claim C8 witness: on the undirected two-node graph, a callback that is
`true` exactly on node `1` stops after visiting `0` then `1`; every trace
entry before the last returned `false`. -/
theorem c8_witness :
    gUndirAB.breadthFirstTraverse (fun n _ => n == 1) (GNodeRef.byId "A")
        Direction.dnone 10 = some [(0, none), (1, some 0)] ∧
    (∀ p ∈ ([(0, none), (1, some 0)] : List (Nat × Option Nat)).dropLast,
      (fun (n : Nat) (_ : Option Nat) => n == 1) p.1 p.2 = false) :=
  ⟨by decide,
    c8_bfs_short_circuit gUndirAB (fun n _ => n == 1) (GNodeRef.byId "A")
      Direction.dnone 10 [(0, none), (1, some 0)] (by decide)⟩

/-! ## Claim C3: how often a node can be visited -/

/-- Claim C3 counterexample: on the undirected two-node graph with edge
`A-B`, a traversal from `"A"` with a never-stopping callback completes and
invokes the callback on the start node twice — `__visited` is never set on
the start, so the cycle `A-B-A` reaches it again. -/
theorem c3_counterexample :
    gUndirAB.breadthFirstTraverse (fun _ _ => false) (GNodeRef.byId "A")
        Direction.dnone 10 = some [(0, none), (1, some 0), (0, some 1)] ∧
    (([(0, none), (1, some 0), (0, some 1)] : List (Nat × Option Nat)).map
        Prod.fst).count 0 = 2 := by
  constructor <;> decide

theorem map_drop_comm {α β : Type} (f : α → β) (l : List α) (n : Nat) :
    (l.map f).drop n = (l.drop n).map f := by
  induction l generalizing n with
  | nil => simp
  | cons x xs ih =>
      cases n with
      | zero => simp
      | succ m => simpa using ih m

theorem drop1_append {α : Type} (acc : List α) (x : α) (h : acc ≠ []) :
    (acc ++ [x]).drop 1 = acc.drop 1 ++ [x] := by
  cases acc with
  | nil => exact absurd rfl h
  | cons a t => simp

theorem nodup_append_singleton {α : Type} (l : List α) (x : α) (h1 : l.Nodup)
    (h2 : x ∉ l) : (l ++ [x]).Nodup := by
  rw [List.nodup_append]
  refine ⟨h1, List.nodup_singleton x, ?_⟩
  intro a ha hax
  rw [List.mem_singleton.mp hax] at ha
  exact h2 ha

theorem default_adj_nil (d : Direction) : (default : GraphNode).adj d = [] := by
  cases d <;> rfl

theorem drop1_map_fst_append (acc : List (Nat × Option Nat)) (x : Nat × Option Nat)
    (h : acc ≠ []) :
    ((acc ++ [x]).map Prod.fst).drop 1 = (acc.map Prod.fst).drop 1 ++ [x.1] := by
  cases acc with
  | nil => exact absurd rfl h
  | cons a t => simp

theorem bfsVisit_nodup (es : List GraphEdge) (cb : Nat → Option Nat → Bool) (cur : Nat) :
    ∀ (lst : List Nat) (ns : List GraphNode) (q : List Nat) (acc : List (Nat × Option Nat))
      (ns2 : List GraphNode) (q2 : List Nat) (acc2 : List (Nat × Option Nat)) (stop : Bool),
    bfsVisit es cb cur lst ns q acc = (ns2, q2, acc2, stop) →
    (∀ eIdx ∈ lst, (if (es.getD eIdx default).node1 = cur then (es.getD eIdx default).node2
        else (es.getD eIdx default).node1) < ns.length) →
    (∀ p ∈ acc.drop 1, (ns.getD p.1 default).visited = true) →
    ((acc.map Prod.fst).drop 1).Nodup →
    acc ≠ [] →
    ns2.length = ns.length ∧
    (∀ i, (ns.getD i default).visited = true → (ns2.getD i default).visited = true) ∧
    (∀ i, (ns2.getD i default).edges = (ns.getD i default).edges ∧
      (ns2.getD i default).inEdges = (ns.getD i default).inEdges ∧
      (ns2.getD i default).outEdges = (ns.getD i default).outEdges) ∧
    (stop = false → ∀ p ∈ acc2.drop 1, (ns2.getD p.1 default).visited = true) ∧
    ((acc2.map Prod.fst).drop 1).Nodup ∧
    acc2 ≠ [] := by
  intro lst
  induction lst with
  | nil =>
      intro ns q acc ns2 q2 acc2 stop heq hs hm hn hne
      rw [bfsVisit] at heq
      injection heq with h1 hr
      injection hr with h2 hr2
      injection hr2 with h3 h4
      subst h1
      subst h3
      exact ⟨rfl, fun i h => h, fun i => ⟨rfl, rfl, rfl⟩, fun _ => hm, hn, hne⟩
  | cons eIdx rest ih =>
      intro ns q acc ns2 q2 acc2 stop heq hs hm hn hne
      rw [bfsVisit] at heq
      have hoth : (if (es.getD eIdx default).node1 = cur then (es.getD eIdx default).node2
          else (es.getD eIdx default).node1) < ns.length :=
        hs eIdx (List.mem_cons_self _ _)
      by_cases hv : (ns.getD (if (es.getD eIdx default).node1 = cur
          then (es.getD eIdx default).node2 else (es.getD eIdx default).node1)
          default).visited = true
      · rw [if_pos hv] at heq
        exact ih ns q acc ns2 q2 acc2 stop heq
          (fun e he => hs e (List.mem_cons_of_mem _ he)) hm hn hne
      · rw [if_neg hv] at heq
        have hnotold : (if (es.getD eIdx default).node1 = cur then (es.getD eIdx default).node2
            else (es.getD eIdx default).node1) ∉ (acc.map Prod.fst).drop 1 := by
          intro hmem
          rw [map_drop_comm] at hmem
          obtain ⟨p, hp1, hp2⟩ := List.mem_map.mp hmem
          rw [← hp2] at hv
          exact hv (hm p hp1)
        have hnodup2 : (((acc ++ [((if (es.getD eIdx default).node1 = cur
            then (es.getD eIdx default).node2 else (es.getD eIdx default).node1),
            some cur)]).map Prod.fst).drop 1).Nodup := by
          rw [drop1_map_fst_append _ _ hne]
          exact nodup_append_singleton _ _ hn hnotold
        by_cases hcb : cb (if (es.getD eIdx default).node1 = cur
            then (es.getD eIdx default).node2 else (es.getD eIdx default).node1)
            (some cur) = true
        · rw [if_pos hcb] at heq
          injection heq with h1 hr
          injection hr with h2 hr2
          injection hr2 with h3 h4
          subst h1
          subst h3
          refine ⟨rfl, fun i h => h, fun i => ⟨rfl, rfl, rfl⟩, ?_, hnodup2, by simp⟩
          intro hstop
          rw [← h4] at hstop
          exact absurd hstop (by simp)
        · rw [if_neg hcb] at heq
          have hmono : ∀ i, (ns.getD i default).visited = true →
              ((updateAt ns (if (es.getD eIdx default).node1 = cur
                then (es.getD eIdx default).node2 else (es.getD eIdx default).node1)
                (fun n => { n with visited := true })).getD i default).visited = true := by
            intro i hvis
            by_cases hio : (if (es.getD eIdx default).node1 = cur
                then (es.getD eIdx default).node2 else (es.getD eIdx default).node1) = i
            · subst hio
              rw [uAt_getD_eq _ _ _ _ hoth]
            · rw [uAt_getD_ne _ _ _ _ _ hio]
              exact hvis
          obtain ⟨c1, c2, c3, c4, c5, c6⟩ := ih _ _ _ ns2 q2 acc2 stop heq
            (by
              intro e he
              rw [uAt_length]
              exact hs e (List.mem_cons_of_mem _ he))
            (by
              intro p hp
              rw [drop1_append _ _ hne] at hp
              rcases List.mem_append.mp hp with hold | hnew
              · exact hmono p.1 (hm p hold)
              · rw [List.mem_singleton.mp hnew]
                rw [uAt_getD_eq _ _ _ _ hoth])
            hnodup2
            (by simp)
          refine ⟨by rw [c1, uAt_length], ?_, ?_, c4, c5, c6⟩
          · intro i hvis
            exact c2 i (hmono i hvis)
          · intro i
            obtain ⟨d1, d2, d3⟩ := c3 i
            refine ⟨?_, ?_, ?_⟩
            · rw [d1]
              exact uAt_getD_field _ _ _ (fun n => { n with visited := true }) _
                GraphNode.edges (fun a => rfl)
            · rw [d2]
              exact uAt_getD_field _ _ _ (fun n => { n with visited := true }) _
                GraphNode.inEdges (fun a => rfl)
            · rw [d3]
              exact uAt_getD_field _ _ _ (fun n => { n with visited := true }) _
                GraphNode.outEdges (fun a => rfl)

theorem bfsLoop_nodup (es : List GraphEdge) (d : Direction) (cb : Nat → Option Nat → Bool)
    (ns0 : List GraphNode) (hsane : SaneTopo ns0 es) :
    ∀ (fuel : Nat) (ns : List GraphNode) (q : List Nat) (acc : List (Nat × Option Nat))
      (tr : List (Nat × Option Nat)),
    bfsLoop es d cb fuel ns q acc = some tr →
    ns.length = ns0.length →
    (∀ i, (ns.getD i default).edges = (ns0.getD i default).edges ∧
      (ns.getD i default).inEdges = (ns0.getD i default).inEdges ∧
      (ns.getD i default).outEdges = (ns0.getD i default).outEdges) →
    (∀ p ∈ acc.drop 1, (ns.getD p.1 default).visited = true) →
    ((acc.map Prod.fst).drop 1).Nodup →
    acc ≠ [] →
    ((tr.map Prod.fst).drop 1).Nodup := by
  intro fuel
  induction fuel with
  | zero =>
      intro ns q acc tr heq
      exact absurd heq (by rw [bfsLoop]; exact Option.noConfusion)
  | succ fuel ih =>
      intro ns q acc tr heq hlen hadj hm hn hne
      cases q with
      | nil =>
          rw [bfsLoop] at heq
          injection heq with h1
          subst h1
          exact hn
      | cons cur qrest =>
          rw [bfsLoop] at heq
          rcases hv : bfsVisit es cb cur ((ns.getD cur default).adj d) ns qrest acc with
            ⟨ns2, q2, acc2, stop⟩
          rw [hv] at heq
          have hlst : ∀ eIdx ∈ (ns.getD cur default).adj d,
              (if (es.getD eIdx default).node1 = cur then (es.getD eIdx default).node2
                else (es.getD eIdx default).node1) < ns.length := by
            by_cases hcur : cur < ns.length
            · have hcur0 : cur < ns0.length := by omega
              have hmem0 : ns0.getD cur default ∈ ns0 := gD_mem _ _ _ hcur0
              obtain ⟨hbe, hbi, hbo⟩ := hsane.2 _ hmem0
              have hadjEq : (ns.getD cur default).adj d = (ns0.getD cur default).adj d := by
                cases d with
                | dnone => exact (hadj cur).1
                | din => exact (hadj cur).2.1
                | dout => exact (hadj cur).2.2
              intro eIdx he
              rw [hadjEq] at he
              have heb : eIdx < es.length := by
                cases d with
                | dnone => exact hbe eIdx he
                | din => exact hbi eIdx he
                | dout => exact hbo eIdx he
              have hedge : es.getD eIdx default ∈ es := gD_mem _ _ _ heb
              obtain ⟨hb1, hb2⟩ := hsane.1 _ hedge
              by_cases hn1 : (es.getD eIdx default).node1 = cur
              · rw [if_pos hn1]
                omega
              · rw [if_neg hn1]
                omega
            · intro eIdx he
              rw [gD_oob _ _ _ (by omega)] at he
              rw [default_adj_nil] at he
              exact absurd he (List.not_mem_nil _)
          obtain ⟨c1, c2, c3, c4, c5, c6⟩ :=
            bfsVisit_nodup es cb cur _ ns qrest acc ns2 q2 acc2 stop hv hlst hm hn hne
          cases stop with
          | true =>
              simp only at heq
              injection heq with h1
              subst h1
              exact c5
          | false =>
              simp only at heq
              refine ih ns2 q2 acc2 tr heq (by omega) ?_ (c4 rfl) c5 c6
              intro i
              obtain ⟨d1, d2, d3⟩ := c3 i
              obtain ⟨e1, e2, e3⟩ := hadj i
              exact ⟨by rw [d1, e1], by rw [d2, e2], by rw [d3, e3]⟩

theorem counts_of_tail_nodup (l : List Nat) (h : (l.drop 1).Nodup) :
    (∀ x, l.count x ≤ 2) ∧ (∀ x, l.head? ≠ some x → l.count x ≤ 1) := by
  cases l with
  | nil => constructor <;> intro x <;> simp
  | cons a t =>
      have ht : t.Nodup := by simpa using h
      have hcnt : ∀ x, t.count x ≤ 1 := fun x => List.nodup_iff_count_le_one.mp ht x
      constructor
      · intro x
        rw [List.count_cons]
        have hx := hcnt x
        by_cases hxa : a = x <;> simp [hxa] <;> omega
      · intro x hx
        have hxa : ¬ a = x := fun he => hx (by simp [he])
        rw [List.count_cons]
        simpa [hxa] using hcnt x

/-- Claim C3 (amended): in a completed `breadthFirstTraverse` the nodes
visited after the start call are pairwise distinct — every node other than
the start is passed to the callback at most once, and every node at most
twice; only the start node, which is never marked visited when enqueued,
can be visited a second time (when a cycle leads back to it, as the
counterexample shows). -/
theorem c3_each_nonstart_once (g : Graph) (cb : Nat → Option Nat → Bool)
    (start : GNodeRef) (d : Direction) (fuel : Nat) (tr : List (Nat × Option Nat))
    (hsane : SaneTopo g.nodes g.edges)
    (h : g.breadthFirstTraverse cb start d fuel = some tr) :
    ((tr.map Prod.fst).drop 1).Nodup ∧
    (∀ x, (tr.map Prod.fst).count x ≤ 2) ∧
    (∀ x, (tr.map Prod.fst).head? ≠ some x → (tr.map Prod.fst).count x ≤ 1) := by
  have hnodup : ((tr.map Prod.fst).drop 1).Nodup := by
    unfold Graph.breadthFirstTraverse at h
    cases hres : g.resolveStart start with
    | none =>
        rw [hres] at h
        injection h with h1
        subst h1
        simp
    | some s =>
        rw [hres] at h
        have h2 : (if cb s none = true then some [(s, (none : Option Nat))]
            else bfsLoop g.edges d cb fuel
              (g.nodes.map fun n => { n with visited := false }) [s] [(s, none)])
            = some tr := h
        by_cases hcb : cb s none = true
        · rw [if_pos hcb] at h2
          injection h2 with h1
          subst h1
          simp
        · rw [if_neg hcb] at h2
          refine bfsLoop_nodup g.edges d cb g.nodes hsane fuel _ _ _ tr h2
            (List.length_map _ _) ?_ (by simp) (by simp) (by simp)
          intro i
          have hmap : (g.nodes.map fun n => { n with visited := false }).getD i default
              = { g.nodes.getD i default with visited := false } :=
            gD_map _ g.nodes i default
          rw [hmap]
          exact ⟨rfl, rfl, rfl⟩
  exact ⟨hnodup, (counts_of_tail_nodup _ hnodup).1, (counts_of_tail_nodup _ hnodup).2⟩

/-- Claim C3 witness: the amended statement applied to the concrete cyclic
run of the counterexample (trace `A, B, A`): the post-start visits `B, A`
are pairwise distinct, every node is visited at most twice, and every
non-start node at most once. -/
theorem c3_witness :
    SaneTopo gUndirAB.nodes gUndirAB.edges ∧
    gUndirAB.breadthFirstTraverse (fun _ _ => false) (GNodeRef.byId "A")
        Direction.dnone 10 = some [(0, none), (1, some 0), (0, some 1)] ∧
    (((([(0, none), (1, some 0), (0, some 1)] : List (Nat × Option Nat)).map
        Prod.fst).drop 1).Nodup ∧
      (∀ x, (([(0, none), (1, some 0), (0, some 1)] : List (Nat × Option Nat)).map
        Prod.fst).count x ≤ 2) ∧
      (∀ x, (([(0, none), (1, some 0), (0, some 1)] : List (Nat × Option Nat)).map
          Prod.fst).head? ≠ some x →
        (([(0, none), (1, some 0), (0, some 1)] : List (Nat × Option Nat)).map
          Prod.fst).count x ≤ 1)) :=
  ⟨by decide, by decide,
    c3_each_nonstart_once gUndirAB (fun _ _ => false) (GNodeRef.byId "A")
      Direction.dnone 10 [(0, none), (1, some 0), (0, some 1)] (by decide) (by decide)⟩

/-! ## Claim C10: the adjacency-consistency invariant -/

theorem aN_length (ps : List (Nat × Nat)) (ns : List GraphNode) :
    (assignNodeDataIdx ns ps).length = ns.length := by
  induction ps generalizing ns with
  | nil => rfl
  | cons pr rest ih =>
      obtain ⟨pos, raw⟩ := pr
      rw [assignNodeDataIdx, ih, uAt_length]

theorem aE_length (ps : List (Nat × Nat)) (es : List GraphEdge) :
    (assignEdgeDataIdx es ps).length = es.length := by
  induction ps generalizing es with
  | nil => rfl
  | cons pr rest ih =>
      obtain ⟨pos, raw⟩ := pr
      rw [assignEdgeDataIdx, ih, uAt_length]

theorem aN_proj {β : Type} (ps : List (Nat × Nat)) (ns : List GraphNode) (j : Nat)
    (proj : GraphNode → β)
    (hp : ∀ n pos, proj { n with dataIndex := pos } = proj n) :
    proj ((assignNodeDataIdx ns ps).getD j default) = proj (ns.getD j default) := by
  induction ps generalizing ns with
  | nil => rfl
  | cons pr rest ih =>
      obtain ⟨pos, raw⟩ := pr
      rw [assignNodeDataIdx, ih]
      exact uAt_getD_field _ _ _ _ _ proj (fun a => hp a _)

theorem wfmaps_shape (ns ns2 : List GraphNode) (es es2 : List GraphEdge)
    (nm em : List (String × Nat))
    (hnl : ns2.length = ns.length) (hel : es2.length = es.length)
    (hid : ∀ i, (ns2.getD i default).id = (ns.getD i default).id)
    (hep : ∀ j, (es2.getD j default).node1 = (es.getD j default).node1 ∧
      (es2.getD j default).node2 = (es.getD j default).node2)
    (hw : WFmapsParts ns es nm em) : WFmapsParts ns2 es2 nm em := by
  obtain ⟨a, b, c, d⟩ := hw
  refine ⟨?_, ?_, ?_, ?_⟩
  · intro p hp
    rw [hnl]
    exact a p hp
  · intro i hi
    rw [hnl] at hi
    have hk : nodeKeyAt ns2 i = nodeKeyAt ns i := by
      unfold nodeKeyAt
      rw [hid]
    rw [hk]
    exact b i hi
  · intro p hp
    rw [hel]
    exact c p hp
  · intro j hj
    rw [hel] at hj
    have hk : edgeKeyAt ns2 es2 j = edgeKeyAt ns es j := by
      unfold edgeKeyAt
      rw [(hep j).1, (hep j).2, hid, hid]
    rw [hk]
    exact d j hj

theorem adjc_shape (dd : Bool) (ns ns2 : List GraphNode) (es es2 : List GraphEdge)
    (hnl : ns2.length = ns.length) (hel : es2.length = es.length)
    (hadj : ∀ i, (ns2.getD i default).edges = (ns.getD i default).edges ∧
      (ns2.getD i default).inEdges = (ns.getD i default).inEdges ∧
      (ns2.getD i default).outEdges = (ns.getD i default).outEdges)
    (hep : ∀ j, (es2.getD j default).node1 = (es.getD j default).node1 ∧
      (es2.getD j default).node2 = (es.getD j default).node2)
    (ha : adjConsistentParts dd ns es) : adjConsistentParts dd ns2 es2 := by
  obtain ⟨a1, a2⟩ := ha
  constructor
  · intro j hj
    rw [hel] at hj
    obtain ⟨b1, b2, b3, b4, b5⟩ := a1 j hj
    obtain ⟨e1, e2⟩ := hep j
    rw [e1, e2, hnl]
    refine ⟨b1, b2, ?_, ?_, ?_⟩
    · rw [(hadj _).1]
      exact b3
    · intro hne
      rw [(hadj _).1]
      exact b4 hne
    · intro hdd
      rw [(hadj _).2.2, (hadj _).2.1]
      exact b5 hdd
  · intro i hi
    rw [hnl] at hi
    obtain ⟨c1, c2, c3, c4⟩ := a2 i hi
    obtain ⟨f1, f2, f3⟩ := hadj i
    rw [f1, f2, f3, hel]
    exact ⟨c1, c2, c3, c4⟩

theorem inv_empty (d : Bool) : (Graph.empty d).Inv := by
  refine ⟨⟨?_, ?_, ?_, ?_⟩, ?_, ?_⟩
  · intro p hp
    exact absurd hp (List.not_mem_nil _)
  · intro i hi
    exact absurd hi (by simp [Graph.empty])
  · intro p hp
    exact absurd hp (List.not_mem_nil _)
  · intro j hj
    exact absurd hj (by simp [Graph.empty])
  · intro j hj
    exact absurd hj (by simp [Graph.empty])
  · intro i hi
    exact absurd hi (by simp [Graph.empty])

theorem wfmaps_addNode (ns : List GraphNode) (es : List GraphEdge)
    (nm em : List (String × Nat)) (s : String) (dval : Int)
    (hl : alookup nm (generateNodeKey s) = none)
    (hw : WFmapsParts ns es nm em)
    (hadj1 : ∀ j, j < es.length →
      (es.getD j default).node1 < ns.length ∧ (es.getD j default).node2 < ns.length) :
    WFmapsParts (ns ++ [⟨s, dval, [], [], [], false⟩]) es
      ((generateNodeKey s, ns.length) :: nm) em := by
  obtain ⟨nm_b, nm_e, em_b, em_e⟩ := hw
  have hL : (ns ++ [(⟨s, dval, [], [], [], false⟩ : GraphNode)]).length = ns.length + 1 := by
    simp
  refine ⟨?_, ?_, ?_, ?_⟩
  · intro p hp
    rw [hL]
    rcases List.mem_cons.mp hp with rfl | hp2
    · simp
    · have := nm_b p hp2
      omega
  · intro i hi
    rw [hL] at hi
    by_cases hiL : i < ns.length
    · have hk : nodeKeyAt (ns ++ [⟨s, dval, [], [], [], false⟩]) i = nodeKeyAt ns i := by
        unfold nodeKeyAt
        rw [gD_append_lt _ _ _ _ hiL]
      rw [hk, alookup_cons_ne]
      · exact nm_e i hiL
      · intro hEq
        rw [hEq, nm_e i hiL] at hl
        exact Option.noConfusion hl
    · have hiEq : i = ns.length := by omega
      subst hiEq
      have hk : nodeKeyAt (ns ++ [⟨s, dval, [], [], [], false⟩]) ns.length
          = generateNodeKey s := by
        unfold nodeKeyAt
        rw [gD_append_len]
      rw [hk, alookup_cons_eq]
  · exact em_b
  · intro j hj
    have hk : edgeKeyAt (ns ++ [⟨s, dval, [], [], [], false⟩]) es j = edgeKeyAt ns es j := by
      unfold edgeKeyAt
      rw [gD_append_lt _ _ _ _ (hadj1 j hj).1, gD_append_lt _ _ _ _ (hadj1 j hj).2]
    rw [hk]
    exact em_e j hj

theorem adjc_addNode (dd : Bool) (ns : List GraphNode) (es : List GraphEdge)
    (s : String) (dval : Int)
    (ha : adjConsistentParts dd ns es) :
    adjConsistentParts dd (ns ++ [⟨s, dval, [], [], [], false⟩]) es := by
  obtain ⟨a1, a2⟩ := ha
  constructor
  · intro j hj
    obtain ⟨b1, b2, b3, b4, b5⟩ := a1 j hj
    refine ⟨?_, ?_, ?_, ?_, ?_⟩
    · rw [List.length_append, List.length_singleton]
      omega
    · rw [List.length_append, List.length_singleton]
      omega
    · rw [gD_append_lt _ _ _ _ b1]
      exact b3
    · intro hne
      rw [gD_append_lt _ _ _ _ b2]
      exact b4 hne
    · intro hdd
      obtain ⟨c1, c2⟩ := b5 hdd
      rw [gD_append_lt _ _ _ _ b1, gD_append_lt _ _ _ _ b2]
      exact ⟨c1, c2⟩
  · intro i hi
    have hi2 : i < ns.length + 1 := by simpa using hi
    by_cases hiL : i < ns.length
    · rw [gD_append_lt _ _ _ _ hiL]
      exact a2 i hiL
    · have hiEq : i = ns.length := by omega
      subst hiEq
      rw [gD_append_len]
      exact ⟨fun x hx => absurd hx (List.not_mem_nil _),
        fun x hx => absurd hx (List.not_mem_nil _),
        fun x hx => absurd hx (List.not_mem_nil _),
        fun _ => ⟨rfl, rfl⟩⟩

theorem inv_addNode (g : Graph) (id : Option String) (di : Option Int) (h : g.Inv) :
    (g.addNode id di).1.Inv := by
  cases hl : alookup g.nodesMap (generateNodeKey (normalizeId id di)) with
  | some v =>
      rw [addNode_dup g id di (by simp [hl])]
      exact h
  | none =>
      rw [addNode_fresh g id di hl]
      obtain ⟨hw, ha⟩ := h
      refine ⟨?_, ?_⟩
      · show WFmapsParts (g.nodes ++ [⟨normalizeId id di, di.getD (-1), [], [], [], false⟩])
          g.edges ((generateNodeKey (normalizeId id di), g.nodes.length) :: g.nodesMap)
          g.edgesMap
        refine wfmaps_addNode g.nodes g.edges g.nodesMap g.edgesMap _ _ hl hw ?_
        intro j hj
        obtain ⟨ha1, ha2⟩ := ha
        exact ⟨(ha1 j hj).1, (ha1 j hj).2.1⟩
      · show adjConsistentParts g.directed
          (g.nodes ++ [⟨normalizeId id di, di.getD (-1), [], [], [], false⟩]) g.edges
        exact adjc_addNode g.directed g.nodes g.edges _ _ ha

theorem count_append_ite (l : List Nat) (c : Prop) [Decidable c] (E j : Nat)
    (hne : j ≠ E) : ((l ++ if c then [E] else []).count j) = l.count j := by
  by_cases hc : c
  · rw [if_pos hc, List.count_append]
    have h0 : ([E] : List Nat).count j = 0 := List.count_eq_zero.mpr (by simpa using hne)
    rw [h0]
    omega
  · rw [if_neg hc, List.append_nil]

theorem count_append_singleton_self (l : List Nat) (E : Nat) (hb : ∀ x ∈ l, x < E) :
    (l ++ [E]).count E = 1 := by
  rw [List.count_append, count_eq_zero_of_bound l E hb]
  simp

theorem inv_addEdgeCore (g : Graph) (i1 i2 : Nat) (di : Option Int)
    (hb1 : i1 < g.nodes.length) (hb2 : i2 < g.nodes.length)
    (hkey : alookup g.edgesMap
      ((g.nodes.getD i1 default).id ++ "-" ++ (g.nodes.getD i2 default).id) = none)
    (h : g.Inv) : (g.addEdgeCore i1 i2 di).Inv := by
  obtain ⟨⟨nm_b, nm_e, em_b, em_e⟩, a1, a2⟩ := h
  have hNL := core_nodes_length g i1 i2 di
  have hE := core_edges g i1 i2 di
  have hEM := core_edgesMap g i1 i2 di
  have hNM := core_nodesMap g i1 i2 di
  have hID := core_node_id g i1 i2 di
  have hEL : (g.addEdgeCore i1 i2 di).edges.length = g.edges.length + 1 := by
    rw [hE]
    simp
  have hNew : (g.addEdgeCore i1 i2 di).edges.getD g.edges.length default
      = ⟨i1, i2, di.getD (-1)⟩ := by
    rw [hE]
    exact gD_append_len _ _ _
  have hOld : ∀ j, j < g.edges.length →
      (g.addEdgeCore i1 i2 di).edges.getD j default = g.edges.getD j default := by
    intro j hj
    rw [hE]
    exact gD_append_lt _ _ _ _ hj
  constructor
  · show WFmapsParts (g.addEdgeCore i1 i2 di).nodes (g.addEdgeCore i1 i2 di).edges
      (g.addEdgeCore i1 i2 di).nodesMap (g.addEdgeCore i1 i2 di).edgesMap
    refine ⟨?_, ?_, ?_, ?_⟩
    · intro p hp
      rw [hNM] at hp
      rw [hNL]
      exact nm_b p hp
    · intro i hi
      rw [hNL] at hi
      have hk : nodeKeyAt (g.addEdgeCore i1 i2 di).nodes i = nodeKeyAt g.nodes i := by
        unfold nodeKeyAt
        rw [hID]
      rw [hNM, hk]
      exact nm_e i hi
    · intro p hp
      rw [hEM] at hp
      rw [hEL]
      rcases List.mem_cons.mp hp with rfl | hp2
      · exact Nat.lt_succ_self _
      · have := em_b p hp2
        omega
    · intro j hj
      rw [hEL] at hj
      by_cases hjL : j < g.edges.length
      · have hk : edgeKeyAt (g.addEdgeCore i1 i2 di).nodes (g.addEdgeCore i1 i2 di).edges j
            = edgeKeyAt g.nodes g.edges j := by
          unfold edgeKeyAt
          rw [hOld j hjL, hID, hID]
        rw [hk, hEM, alookup_cons_ne]
        · exact em_e j hjL
        · intro hEq
          rw [hEq, em_e j hjL] at hkey
          exact Option.noConfusion hkey
      · have hjEq : j = g.edges.length := by omega
        subst hjEq
        have hk : edgeKeyAt (g.addEdgeCore i1 i2 di).nodes (g.addEdgeCore i1 i2 di).edges
            g.edges.length
            = (g.nodes.getD i1 default).id ++ "-" ++ (g.nodes.getD i2 default).id := by
          unfold edgeKeyAt
          rw [hNew, hID, hID]
        rw [hk, hEM, alookup_cons_eq]
  · show adjConsistentParts g.directed (g.addEdgeCore i1 i2 di).nodes
      (g.addEdgeCore i1 i2 di).edges
    constructor
    · intro j hj
      rw [hEL] at hj
      by_cases hjL : j < g.edges.length
      · obtain ⟨b1, b2, b3, b4, b5⟩ := a1 j hjL
        rw [hOld j hjL, hNL]
        refine ⟨b1, b2, ?_, ?_, ?_⟩
        · rw [core_node_edges g i1 i2 di _ hb1 hb2, count_append_ite _ _ _ _ (by omega)]
          exact b3
        · intro hne
          rw [core_node_edges g i1 i2 di _ hb1 hb2, count_append_ite _ _ _ _ (by omega)]
          exact b4 hne
        · intro hdd
          obtain ⟨c1, c2⟩ := b5 hdd
          rw [core_node_out g i1 i2 di _ hb1, count_append_ite _ _ _ _ (by omega),
            core_node_in g i1 i2 di _ hb2, count_append_ite _ _ _ _ (by omega)]
          exact ⟨c1, c2⟩
      · have hjEq : j = g.edges.length := by omega
        subst hjEq
        rw [hNew, hNL]
        refine ⟨hb1, hb2, ?_, ?_, ?_⟩
        · rw [core_node_edges g i1 i2 di i1 hb1 hb2, if_pos (Or.inl rfl)]
          exact count_append_singleton_self _ _ (fun x hx => (a2 i1 hb1).1 x hx)
        · intro hne
          rw [core_node_edges g i1 i2 di i2 hb1 hb2, if_pos (Or.inr rfl)]
          exact count_append_singleton_self _ _ (fun x hx => (a2 i2 hb2).1 x hx)
        · intro hdd
          constructor
          · rw [core_node_out g i1 i2 di i1 hb1, if_pos ⟨hdd, rfl⟩]
            exact count_append_singleton_self _ _ (fun x hx => (a2 i1 hb1).2.2.1 x hx)
          · rw [core_node_in g i1 i2 di i2 hb2, if_pos ⟨hdd, rfl⟩]
            exact count_append_singleton_self _ _ (fun x hx => (a2 i2 hb2).2.1 x hx)
    · intro i hi
      rw [hNL] at hi
      obtain ⟨c1, c2, c3, c4⟩ := a2 i hi
      refine ⟨?_, ?_, ?_, ?_⟩
      · rw [core_node_edges g i1 i2 di i hb1 hb2, hEL]
        intro x hx
        rcases List.mem_append.mp hx with hxo | hxi
        · have := c1 x hxo
          omega
        · by_cases hcond : (i = i1 ∨ i = i2)
          · rw [if_pos hcond] at hxi
            rw [List.mem_singleton.mp hxi]
            omega
          · rw [if_neg hcond] at hxi
            exact absurd hxi (List.not_mem_nil _)
      · rw [core_node_in g i1 i2 di i hb2, hEL]
        intro x hx
        rcases List.mem_append.mp hx with hxo | hxi
        · have := c2 x hxo
          omega
        · by_cases hcond : (g.directed = true ∧ i = i2)
          · rw [if_pos hcond] at hxi
            rw [List.mem_singleton.mp hxi]
            omega
          · rw [if_neg hcond] at hxi
            exact absurd hxi (List.not_mem_nil _)
      · rw [core_node_out g i1 i2 di i hb1, hEL]
        intro x hx
        rcases List.mem_append.mp hx with hxo | hxi
        · have := c3 x hxo
          omega
        · by_cases hcond : (g.directed = true ∧ i = i1)
          · rw [if_pos hcond] at hxi
            rw [List.mem_singleton.mp hxi]
            omega
          · rw [if_neg hcond] at hxi
            exact absurd hxi (List.not_mem_nil _)
      · intro hdd
        have hnd1 : ¬(g.directed = true ∧ i = i1) := by
          intro hx
          rw [hdd] at hx
          exact Bool.noConfusion hx.1
        have hnd2 : ¬(g.directed = true ∧ i = i2) := by
          intro hx
          rw [hdd] at hx
          exact Bool.noConfusion hx.1
        rw [core_node_in g i1 i2 di i hb2, core_node_out g i1 i2 di i hb1,
          if_neg hnd1, if_neg hnd2, List.append_nil, List.append_nil]
        exact c4 hdd

theorem inv_addEdge (g : Graph) (r1 r2 : NodeRef) (di : Option Int) (h : g.Inv) :
    (g.addEdge r1 r2 di).1.Inv := by
  cases h1 : g.resolveNode r1 with
  | none =>
      rw [addEdge_unres1 _ _ _ _ h1]
      exact h
  | some i1 =>
      cases h2 : g.resolveNode r2 with
      | none =>
          rw [addEdge_unres2 _ _ _ _ h2]
          exact h
      | some i2 =>
          cases hkey : alookup g.edgesMap
              ((g.nodes.getD i1 default).id ++ "-" ++ (g.nodes.getD i2 default).id) with
          | some e =>
              rw [addEdge_dup _ _ _ _ _ _ _ h1 h2 hkey]
              exact h
          | none =>
              rw [addEdge_new _ _ _ _ _ _ h1 h2 hkey]
              exact inv_addEdgeCore g i1 i2 di (resolve_bound _ _ _ h.1.1 h1)
                (resolve_bound _ _ _ h.1.1 h2) hkey h

theorem inv_update (g : Graph) (h : g.Inv) : (g.update).Inv := by
  have hUN : (g.update).nodes = g.updatedNodes := rfl
  have hUE : (g.update).edges = assignEdgeDataIdx
      (g.edges.map fun e => { e with dataIndex := -1 })
      (enumPairs 0 ((g.edgeData.filterSelf (g.updatePred g.updatedNodes)).rawIndices)) := rfl
  have hresetN : ∀ k, (g.nodes.map fun n => { n with dataIndex := (-1 : Int) }).getD k default
      = { g.nodes.getD k default with dataIndex := -1 } :=
    fun k => gD_map _ g.nodes k default
  have hresetE : ∀ k, (g.edges.map fun e => { e with dataIndex := (-1 : Int) }).getD k default
      = { g.edges.getD k default with dataIndex := -1 } :=
    fun k => gD_map _ g.edges k default
  have hnl : (g.update).nodes.length = g.nodes.length := by
    rw [hUN]
    unfold Graph.updatedNodes
    rw [aN_length, List.length_map]
  have hel : (g.update).edges.length = g.edges.length := by
    rw [hUE, aE_length, List.length_map]
  have hid : ∀ i, ((g.update).nodes.getD i default).id = (g.nodes.getD i default).id := by
    intro i
    rw [hUN]
    unfold Graph.updatedNodes
    rw [aN_proj _ _ _ GraphNode.id (fun n pos => rfl), hresetN]
  have hadj : ∀ i, ((g.update).nodes.getD i default).edges = (g.nodes.getD i default).edges ∧
      ((g.update).nodes.getD i default).inEdges = (g.nodes.getD i default).inEdges ∧
      ((g.update).nodes.getD i default).outEdges = (g.nodes.getD i default).outEdges := by
    intro i
    rw [hUN]
    unfold Graph.updatedNodes
    rw [aN_proj _ _ _ GraphNode.edges (fun n pos => rfl),
      aN_proj _ _ _ GraphNode.inEdges (fun n pos => rfl),
      aN_proj _ _ _ GraphNode.outEdges (fun n pos => rfl), hresetN]
    exact ⟨rfl, rfl, rfl⟩
  have hep : ∀ j, ((g.update).edges.getD j default).node1 = (g.edges.getD j default).node1 ∧
      ((g.update).edges.getD j default).node2 = (g.edges.getD j default).node2 := by
    intro j
    constructor
    · rw [hUE, aE_proj _ _ _ GraphEdge.node1 (fun e pos => rfl), hresetE]
    · rw [hUE, aE_proj _ _ _ GraphEdge.node2 (fun e pos => rfl), hresetE]
  constructor
  · show WFmapsParts (g.update).nodes (g.update).edges g.nodesMap g.edgesMap
    exact wfmaps_shape g.nodes _ g.edges _ g.nodesMap g.edgesMap hnl hel hid hep h.1
  · show adjConsistentParts g.directed (g.update).nodes (g.update).edges
    exact adjc_shape g.directed g.nodes _ g.edges _ hnl hel hadj hep h.2

theorem inv_applyOp (g : Graph) (op : GraphOp) (h : g.Inv) : (g.applyOp op).Inv := by
  cases op with
  | addNode id di => exact inv_addNode g id di h
  | addEdge r1 r2 di => exact inv_addEdge g r1 r2 di h
  | setData t => exact h
  | setEdgeData t => exact h
  | update => exact inv_update g h

theorem inv_buildGraph (d : Bool) (ops : List GraphOp) : (buildGraph d ops).Inv := by
  unfold buildGraph
  suffices hgen : ∀ (g : Graph), g.Inv → (ops.foldl Graph.applyOp g).Inv from
    hgen _ (inv_empty d)
  induction ops with
  | nil => exact fun g hg => hg
  | cons op rest ih => exact fun g hg => ih _ (inv_applyOp g op hg)

/-- Claim C10: the adjacency-consistency invariant holds of every graph
reachable through the public mutating operations: every stored edge occurs
exactly once in `node1.edges`, once in `node2.edges` when the endpoints
differ (self-loops recorded once), and once in `node1.outEdges` /
`node2.inEdges` when directed; every adjacency-list entry indexes
`graph.edges` of that same graph; undirected graphs keep `inEdges` /
`outEdges` empty. -/
theorem c10_adjacency_invariant (d : Bool) (ops : List GraphOp) :
    (buildGraph d ops).adjConsistent :=
  (inv_buildGraph d ops).2

/-- Claim C10 witness: the invariant evaluated on a concrete directed
graph with a normal edge and a self-loop, built through the operations. -/
theorem c10_witness :
    (buildGraph true [GraphOp.addNode (some "A") none, GraphOp.addNode (some "B") none,
      GraphOp.addEdge (NodeRef.byId "A") (NodeRef.byId "B") none,
      GraphOp.addEdge (NodeRef.byId "B") (NodeRef.byId "B") none]).adjConsistent :=
  c10_adjacency_invariant true [GraphOp.addNode (some "A") none,
    GraphOp.addNode (some "B") none,
    GraphOp.addEdge (NodeRef.byId "A") (NodeRef.byId "B") none,
    GraphOp.addEdge (NodeRef.byId "B") (NodeRef.byId "B") none]

/-! ## Claim C5: addNode with unique ids, and the duplicate no-op -/

theorem addNodesFold_spec (ps : List (Option String × Option Int)) :
    ∀ (g : Graph),
    (∀ p ∈ ps, alookup g.nodesMap (generateNodeKey (normalizeId p.1 p.2)) = none) →
    (ps.map fun p => normalizeId p.1 p.2).Nodup →
    (addNodesFold g ps).nodes.length = g.nodes.length + ps.length ∧
    (∀ q, q < g.nodes.length →
      (addNodesFold g ps).nodes.getD q default = g.nodes.getD q default) ∧
    (∀ k, k < ps.length →
      (addNodesFold g ps).nodes.getD (g.nodes.length + k) default
        = ⟨normalizeId (ps.getD k (none, none)).1 (ps.getD k (none, none)).2,
            ((ps.getD k (none, none)).2).getD (-1), [], [], [], false⟩) ∧
    (∀ s v, alookup g.nodesMap s = some v →
      alookup (addNodesFold g ps).nodesMap s = some v) ∧
    (∀ k, k < ps.length →
      alookup (addNodesFold g ps).nodesMap
        (generateNodeKey (normalizeId (ps.getD k (none, none)).1 (ps.getD k (none, none)).2))
        = some (g.nodes.length + k)) := by
  induction ps with
  | nil =>
      intro g hfresh hnd
      refine ⟨by simp [addNodesFold], fun q hq => rfl, ?_, fun s v hs => hs, ?_⟩
      · intro k hk
        exact absurd hk (by simp)
      · intro k hk
        exact absurd hk (by simp)
  | cons p rest ih =>
      intro g hfresh hnd
      have hl : alookup g.nodesMap (generateNodeKey (normalizeId p.1 p.2)) = none :=
        hfresh p (List.mem_cons_self _ _)
      have hstep : addNodesFold g (p :: rest)
          = addNodesFold ({ g with
              nodes := g.nodes ++ [⟨normalizeId p.1 p.2, (p.2).getD (-1), [], [], [], false⟩],
              nodesMap := (generateNodeKey (normalizeId p.1 p.2), g.nodes.length)
                :: g.nodesMap }) rest := by
        show addNodesFold (g.addNode p.1 p.2).1 rest = _
        rw [addNode_fresh g p.1 p.2 hl]
      have hheadnotin : ∀ q ∈ rest, normalizeId q.1 q.2 ≠ normalizeId p.1 p.2 := by
        intro q hq hEq
        have hmem : normalizeId p.1 p.2 ∈ rest.map fun r => normalizeId r.1 r.2 := by
          rw [← hEq]
          exact List.mem_map_of_mem _ hq
        rw [List.map_cons] at hnd
        exact (List.nodup_cons.mp hnd).1 hmem
      have hfresh1 : ∀ q ∈ rest,
          alookup ((generateNodeKey (normalizeId p.1 p.2), g.nodes.length) :: g.nodesMap)
            (generateNodeKey (normalizeId q.1 q.2)) = none := by
        intro q hq
        rw [alookup_cons_ne _ _ _ _
          (fun hEq => hheadnotin q hq (generateNodeKey_inj hEq).symm)]
        exact hfresh q (List.mem_cons_of_mem _ hq)
      have hnd1 : (rest.map fun r => normalizeId r.1 r.2).Nodup := by
        rw [List.map_cons] at hnd
        exact (List.nodup_cons.mp hnd).2
      obtain ⟨ih1, ih2, ih3, ih4, ih5⟩ := ih ({ g with
        nodes := g.nodes ++ [⟨normalizeId p.1 p.2, (p.2).getD (-1), [], [], [], false⟩],
        nodesMap := (generateNodeKey (normalizeId p.1 p.2), g.nodes.length)
          :: g.nodesMap }) hfresh1 hnd1
      have hglen : ({ g with
          nodes := g.nodes ++ [⟨normalizeId p.1 p.2, (p.2).getD (-1), [], [], [], false⟩],
          nodesMap := (generateNodeKey (normalizeId p.1 p.2), g.nodes.length)
            :: g.nodesMap } : Graph).nodes.length = g.nodes.length + 1 := by
        simp
      refine ⟨?_, ?_, ?_, ?_, ?_⟩
      · rw [hstep, ih1, hglen, List.length_cons]
        omega
      · intro q hq
        rw [hstep, ih2 q (by rw [hglen]; omega)]
        show (g.nodes
          ++ [(⟨normalizeId p.1 p.2, (p.2).getD (-1), [], [], [], false⟩ : GraphNode)]).getD
          q default = _
        exact gD_append_lt _ _ _ _ hq
      · intro k hk
        cases k with
        | zero =>
            rw [hstep]
            have := ih2 g.nodes.length (by rw [hglen]; omega)
            rw [show g.nodes.length + 0 = g.nodes.length from by omega, this]
            show (g.nodes
              ++ [(⟨normalizeId p.1 p.2, (p.2).getD (-1), [], [], [], false⟩ : GraphNode)]).getD
              g.nodes.length default = _
            rw [gD_append_len]
            rfl
        | succ k2 =>
            rw [hstep]
            have hk2 : k2 < rest.length := by
              rw [List.length_cons] at hk
              omega
            have := ih3 k2 hk2
            rw [hglen] at this
            rw [show g.nodes.length + (k2 + 1) = g.nodes.length + 1 + k2 from by omega, this]
            rfl
      · intro s v hs
        rw [hstep]
        refine ih4 s v ?_
        show alookup ((generateNodeKey (normalizeId p.1 p.2), g.nodes.length)
          :: g.nodesMap) s = some v
        rw [alookup_cons_ne]
        · exact hs
        · intro hEq
          rw [hEq, hs] at hl
          exact Option.noConfusion hl
      · intro k hk
        cases k with
        | zero =>
            rw [hstep]
            rw [show g.nodes.length + 0 = g.nodes.length from by omega]
            refine ih4 _ _ ?_
            show alookup ((generateNodeKey (normalizeId p.1 p.2), g.nodes.length)
              :: g.nodesMap) _ = _
            exact alookup_cons_eq _ _ _
        | succ k2 =>
            rw [hstep]
            have hk2 : k2 < rest.length := by
              rw [List.length_cons] at hk
              omega
            have := ih5 k2 hk2
            rw [hglen] at this
            rw [show g.nodes.length + (k2 + 1) = g.nodes.length + 1 + k2 from by omega]
            exact this

theorem foldl_applyOp_addNodes (ps : List (Option String × Option Int)) (g : Graph) :
    List.foldl Graph.applyOp g (ps.map fun p => GraphOp.addNode p.1 p.2)
      = ps.foldl (fun acc p => (acc.addNode p.1 p.2).1) g := by
  induction ps generalizing g with
  | nil => rfl
  | cons p rest ih =>
      rw [List.map_cons, List.foldl_cons, List.foldl_cons]
      exact ih _

theorem buildGraph_addNodes (dir : Bool) (ps : List (Option String × Option Int)) :
    buildGraph dir (ps.map fun p => GraphOp.addNode p.1 p.2)
      = addNodesFold (Graph.empty dir) ps := by
  unfold buildGraph addNodesFold
  exact foldl_applyOp_addNodes ps (Graph.empty dir)

/-- Claim C5: for every sequence of `addNode` calls whose normalized ids
are pairwise distinct, `getNodeById(id)` returns exactly the node added
with that id (with the supplied id and `dataIndex` seed); and an `addNode`
whose normalized id is already indexed returns nothing and leaves the
graph — nodes sequence and node index included — unchanged. -/
theorem c5_addNode_unique_ids (dir : Bool) (ps : List (Option String × Option Int))
    (hnd : (ps.map fun p => normalizeId p.1 p.2).Nodup) :
    (∀ k, k < ps.length →
      (buildGraph dir (ps.map fun p => GraphOp.addNode p.1 p.2)).getNodeById
          (normalizeId (ps.getD k (none, none)).1 (ps.getD k (none, none)).2) = some k ∧
      ((buildGraph dir (ps.map fun p => GraphOp.addNode p.1 p.2)).nodes.getD k default).id
        = normalizeId (ps.getD k (none, none)).1 (ps.getD k (none, none)).2 ∧
      ((buildGraph dir
          (ps.map fun p => GraphOp.addNode p.1 p.2)).nodes.getD k default).dataIndex
        = ((ps.getD k (none, none)).2).getD (-1)) ∧
    (∀ (g : Graph) (id : Option String) (di : Option Int),
      g.getNodeById (normalizeId id di) ≠ none → g.addNode id di = (g, none)) := by
  constructor
  · intro k hk
    rw [buildGraph_addNodes]
    obtain ⟨h1, h2, h3, h4, h5⟩ := addNodesFold_spec ps (Graph.empty dir)
      (fun p hp => rfl) hnd
    have hL0 : (Graph.empty dir).nodes.length = 0 := rfl
    refine ⟨?_, ?_, ?_⟩
    · show alookup (addNodesFold (Graph.empty dir) ps).nodesMap _ = _
      have := h5 k hk
      rw [hL0] at this
      rw [this, Nat.zero_add]
    · have := h3 k hk
      rw [hL0] at this
      rw [Nat.zero_add] at this
      rw [this]
    · have := h3 k hk
      rw [hL0] at this
      rw [Nat.zero_add] at this
      rw [this]
  · intro g id di hdup
    exact addNode_dup g id di hdup

/-- Claim C5 witness: two nodes with distinct normalized ids (`"A"` and
the id `"7"` normalized from a missing id with seed 7); `getNodeById`
returns each, and re-adding id `"A"` is a no-op returning nothing. -/
theorem c5_witness :
    (([(some "A", some 5), (none, some 7)] :
        List (Option String × Option Int)).map fun p => normalizeId p.1 p.2).Nodup ∧
    ((∀ k, k < ([(some "A", some 5), (none, some 7)] :
        List (Option String × Option Int)).length →
      (buildGraph false (([(some "A", some 5), (none, some 7)] :
          List (Option String × Option Int)).map fun p => GraphOp.addNode p.1 p.2)).getNodeById
          (normalizeId (([(some "A", some 5), (none, some 7)] :
            List (Option String × Option Int)).getD k (none, none)).1
            (([(some "A", some 5), (none, some 7)] :
            List (Option String × Option Int)).getD k (none, none)).2) = some k ∧
      ((buildGraph false (([(some "A", some 5), (none, some 7)] :
          List (Option String × Option Int)).map
            fun p => GraphOp.addNode p.1 p.2)).nodes.getD k default).id
        = normalizeId (([(some "A", some 5), (none, some 7)] :
            List (Option String × Option Int)).getD k (none, none)).1
            (([(some "A", some 5), (none, some 7)] :
            List (Option String × Option Int)).getD k (none, none)).2 ∧
      ((buildGraph false (([(some "A", some 5), (none, some 7)] :
          List (Option String × Option Int)).map
            fun p => GraphOp.addNode p.1 p.2)).nodes.getD k default).dataIndex
        = ((([(some "A", some 5), (none, some 7)] :
            List (Option String × Option Int)).getD k (none, none)).2).getD (-1)) ∧
    (∀ (g : Graph) (id : Option String) (di : Option Int),
      g.getNodeById (normalizeId id di) ≠ none → g.addNode id di = (g, none))) :=
  ⟨by decide,
    c5_addNode_unique_ids false [(some "A", some 5), (none, some 7)] (by decide)⟩

/-! ## Claim C6: clone -/

theorem gD_map_lt {α β : Type} (f : α → β) (l : List α) (k : Nat) (d : β) (d2 : α)
    (h : k < l.length) : (l.map f).getD k d = f (l.getD k d2) := by
  induction l generalizing k with
  | nil => simp at h
  | cons x xs ih =>
      cases k with
      | zero => rfl
      | succ m =>
          simp only [List.length_cons] at h
          simpa [List.getD] using ih m (by omega)

theorem mem_getD_idx {α : Type} [Inhabited α] (l : List α) (a : α) (h : a ∈ l) :
    ∃ m, m < l.length ∧ l.getD m default = a := by
  induction l with
  | nil => simp at h
  | cons x xs ih =>
      rcases List.mem_cons.mp h with rfl | h2
      · exact ⟨0, by simp, rfl⟩
      · obtain ⟨m, hm, hg⟩ := ih h2
        exact ⟨m + 1, by simpa using Nat.succ_lt_succ hm, hg⟩

theorem nodup_of_getD_inj {β : Type} (f : GraphNode → β) (l : List GraphNode)
    (h : ∀ a b, a < l.length → b < l.length →
      f (l.getD a default) = f (l.getD b default) → a = b) :
    (l.map f).Nodup := by
  induction l with
  | nil => simp
  | cons x xs ih =>
      rw [List.map_cons, List.nodup_cons]
      constructor
      · intro hmem
        obtain ⟨a, ha, hfa⟩ := List.mem_map.mp hmem
        obtain ⟨m, hm, hg⟩ := mem_getD_idx xs a ha
        have heq : f ((x :: xs).getD 0 default) = f ((x :: xs).getD (m + 1) default) := by
          show f x = f (xs.getD m default)
          rw [hg, hfa]
        have h01 := h 0 (m + 1) (by simp) (by simpa using Nat.succ_lt_succ hm) heq
        exact absurd h01 (by omega)
      · refine ih ?_
        intro a b ha hb heq
        have hs := h (a + 1) (b + 1) (by simpa using Nat.succ_lt_succ ha)
          (by simpa using Nat.succ_lt_succ hb) heq
        omega

theorem ids_nodup (g : Graph) (h : g.Inv) : (g.nodes.map GraphNode.id).Nodup := by
  refine nodup_of_getD_inj GraphNode.id g.nodes ?_
  intro a b ha hb heq
  have h1 := h.1.2.1 a ha
  have h2 := h.1.2.1 b hb
  have hk : nodeKeyAt g.nodes a = nodeKeyAt g.nodes b := by
    unfold nodeKeyAt
    rw [heq]
  rw [hk, h2] at h1
  exact (Option.some.inj h1).symm

theorem addNodesFold_frame (ps : List (Option String × Option Int)) :
    ∀ g : Graph, (addNodesFold g ps).edges = g.edges ∧
      (addNodesFold g ps).edgesMap = g.edgesMap ∧
      (addNodesFold g ps).directed = g.directed := by
  induction ps with
  | nil => exact fun g => ⟨rfl, rfl, rfl⟩
  | cons p rest ih =>
      intro g
      have hstep : addNodesFold g (p :: rest) = addNodesFold (g.addNode p.1 p.2).1 rest := rfl
      rw [hstep]
      cases hl : alookup g.nodesMap (generateNodeKey (normalizeId p.1 p.2)) with
      | some v =>
          rw [addNode_dup g p.1 p.2 (by simp [hl])]
          exact ih g
      | none =>
          rw [addNode_fresh g p.1 p.2 hl]
          exact ih { g with
            nodes := g.nodes ++ [⟨normalizeId p.1 p.2, p.2.getD (-1), [], [], [], false⟩],
            nodesMap := (generateNodeKey (normalizeId p.1 p.2), g.nodes.length) :: g.nodesMap }

theorem foldl_map_helper {α β γ : Type} (f : α → β) (h : γ → β → γ) (l : List α)
    (init : γ) :
    (l.map f).foldl h init = l.foldl (fun acc x => h acc (f x)) init := by
  induction l generalizing init with
  | nil => rfl
  | cons x xs ih =>
      rw [List.map_cons, List.foldl_cons, List.foldl_cons]
      exact ih _

theorem map_eq_of_getD {α β : Type} [Inhabited α] (f : α → β) (l m : List α)
    (hl : l.length = m.length)
    (h : ∀ k, f (l.getD k default) = f (m.getD k default)) :
    l.map f = m.map f := by
  induction l generalizing m with
  | nil =>
      cases m with
      | nil => rfl
      | cons y ys => simp at hl
  | cons x xs ih =>
      cases m with
      | nil => simp at hl
      | cons y ys =>
          simp only [List.length_cons] at hl
          rw [List.map_cons, List.map_cons]
          congr 1
          · exact h 0
          · exact ih ys (by omega) (fun k => h (k + 1))

theorem clone_edges_fold (g : Graph) (hInv : g.Inv) (suf : List GraphEdge) :
    ∀ (k : Nat) (r : Graph),
    (∀ m, suf.getD m default = g.edges.getD (k + m) default) →
    suf.length + k = g.edges.length →
    r.nodes.length = g.nodes.length →
    (∀ m, (r.nodes.getD m default).id = (g.nodes.getD m default).id) →
    (∀ m, (r.nodes.getD m default).dataIndex = (g.nodes.getD m default).dataIndex) →
    (∀ m, m < g.nodes.length →
      alookup r.nodesMap (generateNodeKey ((g.nodes.getD m default).id)) = some m) →
    r.edges.length = k →
    (∀ p, p < k → r.edges.getD p default = g.edges.getD p default) →
    (∀ p, p < k → alookup r.edgesMap (edgeKeyAt g.nodes g.edges p) = some p) →
    (∀ s, alookup r.edgesMap s ≠ none → ∃ p, p < k ∧ s = edgeKeyAt g.nodes g.edges p) →
    (suf.foldl (fun acc e =>
        (acc.addEdge (NodeRef.byId ((g.nodes.getD e.node1 default).id))
          (NodeRef.byId ((g.nodes.getD e.node2 default).id)) (some e.dataIndex)).1)
        r).directed = r.directed ∧
    (suf.foldl (fun acc e =>
        (acc.addEdge (NodeRef.byId ((g.nodes.getD e.node1 default).id))
          (NodeRef.byId ((g.nodes.getD e.node2 default).id)) (some e.dataIndex)).1)
        r).nodes.length = g.nodes.length ∧
    (∀ m, ((suf.foldl (fun acc e =>
        (acc.addEdge (NodeRef.byId ((g.nodes.getD e.node1 default).id))
          (NodeRef.byId ((g.nodes.getD e.node2 default).id)) (some e.dataIndex)).1)
        r).nodes.getD m default).id = (g.nodes.getD m default).id) ∧
    (∀ m, ((suf.foldl (fun acc e =>
        (acc.addEdge (NodeRef.byId ((g.nodes.getD e.node1 default).id))
          (NodeRef.byId ((g.nodes.getD e.node2 default).id)) (some e.dataIndex)).1)
        r).nodes.getD m default).dataIndex = (g.nodes.getD m default).dataIndex) ∧
    (suf.foldl (fun acc e =>
        (acc.addEdge (NodeRef.byId ((g.nodes.getD e.node1 default).id))
          (NodeRef.byId ((g.nodes.getD e.node2 default).id)) (some e.dataIndex)).1)
        r).edges.length = g.edges.length ∧
    (∀ p, p < g.edges.length → (suf.foldl (fun acc e =>
        (acc.addEdge (NodeRef.byId ((g.nodes.getD e.node1 default).id))
          (NodeRef.byId ((g.nodes.getD e.node2 default).id)) (some e.dataIndex)).1)
        r).edges.getD p default = g.edges.getD p default) := by
  induction suf with
  | nil =>
      intro k r hsuf hlen hrn hrid hrdi hrlook hrel hredge hrem1 hrem2
      have hk : k = g.edges.length := by
        simpa using hlen
      refine ⟨rfl, hrn, hrid, hrdi, by rw [List.foldl_nil, hrel, hk], ?_⟩
      intro p hp
      rw [List.foldl_nil]
      exact hredge p (by omega)
  | cons e rest ih =>
      intro k r hsuf hlen hrn hrid hrdi hrlook hrel hredge hrem1 hrem2
      have hk_lt : k < g.edges.length := by
        have := hlen
        simp only [List.length_cons] at this
        omega
      have he : e = g.edges.getD (k + 0) default := hsuf 0
      rw [Nat.add_zero] at he
      have hadj := hInv.2.1 k hk_lt
      have hb1 : e.node1 < g.nodes.length := by rw [he]; exact hadj.1
      have hb2 : e.node2 < g.nodes.length := by rw [he]; exact hadj.2.1
      have hres1 : r.resolveNode (NodeRef.byId ((g.nodes.getD e.node1 default).id))
          = some e.node1 := hrlook e.node1 hb1
      have hres2 : r.resolveNode (NodeRef.byId ((g.nodes.getD e.node2 default).id))
          = some e.node2 := hrlook e.node2 hb2
      have hkey : (r.nodes.getD e.node1 default).id ++ "-" ++ (r.nodes.getD e.node2 default).id
          = edgeKeyAt g.nodes g.edges k := by
        unfold edgeKeyAt
        rw [← he, hrid e.node1, hrid e.node2]
      have hkne : ∀ p, p < g.edges.length →
          edgeKeyAt g.nodes g.edges k = edgeKeyAt g.nodes g.edges p → k = p := by
        intro p hp hEq
        have h1 := hInv.1.2.2.2 k hk_lt
        rw [hEq, hInv.1.2.2.2 p hp] at h1
        exact (Option.some.inj h1).symm
      have hnotdup : alookup r.edgesMap
          ((r.nodes.getD e.node1 default).id ++ "-" ++ (r.nodes.getD e.node2 default).id)
          = none := by
        cases hx : alookup r.edgesMap
            ((r.nodes.getD e.node1 default).id ++ "-" ++ (r.nodes.getD e.node2 default).id) with
        | none => rfl
        | some v =>
            exfalso
            obtain ⟨p, hp, hsp⟩ := hrem2 _ (by rw [hx]; simp)
            have : k = p := hkne p (by omega) (by rw [← hkey]; exact hsp)
            omega
      have hone : (r.addEdge (NodeRef.byId ((g.nodes.getD e.node1 default).id))
            (NodeRef.byId ((g.nodes.getD e.node2 default).id)) (some e.dataIndex)).1
          = r.addEdgeCore e.node1 e.node2 (some e.dataIndex) := by
        rw [addEdge_new r _ _ (some e.dataIndex) e.node1 e.node2 hres1 hres2 hnotdup]
      have hstep : (e :: rest).foldl (fun acc e =>
            (acc.addEdge (NodeRef.byId ((g.nodes.getD e.node1 default).id))
              (NodeRef.byId ((g.nodes.getD e.node2 default).id)) (some e.dataIndex)).1) r
          = rest.foldl (fun acc e =>
            (acc.addEdge (NodeRef.byId ((g.nodes.getD e.node1 default).id))
              (NodeRef.byId ((g.nodes.getD e.node2 default).id)) (some e.dataIndex)).1)
            (r.addEdgeCore e.node1 e.node2 (some e.dataIndex)) := by
        rw [List.foldl_cons, hone]
      have hsuf2 : ∀ m, rest.getD m default = g.edges.getD (k + 1 + m) default := by
        intro m
        have h2 : rest.getD m default = g.edges.getD (k + (m + 1)) default := hsuf (m + 1)
        rw [show k + (m + 1) = k + 1 + m by omega] at h2
        exact h2
      have hlen2 : rest.length + (k + 1) = g.edges.length := by
        simp only [List.length_cons] at hlen
        omega
      have hrn2 : (r.addEdgeCore e.node1 e.node2 (some e.dataIndex)).nodes.length
          = g.nodes.length := by
        rw [core_nodes_length]
        exact hrn
      have hrid2 : ∀ m,
          ((r.addEdgeCore e.node1 e.node2 (some e.dataIndex)).nodes.getD m default).id
          = (g.nodes.getD m default).id := by
        intro m
        rw [core_node_id]
        exact hrid m
      have hrdi2 : ∀ m,
          ((r.addEdgeCore e.node1 e.node2 (some e.dataIndex)).nodes.getD m default).dataIndex
          = (g.nodes.getD m default).dataIndex := by
        intro m
        rw [core_node_dataIndex]
        exact hrdi m
      have hrlook2 : ∀ m, m < g.nodes.length →
          alookup (r.addEdgeCore e.node1 e.node2 (some e.dataIndex)).nodesMap
            (generateNodeKey ((g.nodes.getD m default).id)) = some m := by
        intro m hm
        rw [core_nodesMap]
        exact hrlook m hm
      have hrel2 : (r.addEdgeCore e.node1 e.node2 (some e.dataIndex)).edges.length = k + 1 := by
        rw [core_edges, List.length_append, hrel, List.length_singleton]
      have hredge2 : ∀ p, p < k + 1 →
          (r.addEdgeCore e.node1 e.node2 (some e.dataIndex)).edges.getD p default
          = g.edges.getD p default := by
        intro p hp
        rw [core_edges]
        by_cases hpk : p < k
        · rw [gD_append_lt _ _ _ _ (by rw [hrel]; exact hpk)]
          exact hredge p hpk
        · have hp2 : p = k := by omega
          subst hp2
          have hx : (r.edges
              ++ [(⟨e.node1, e.node2, (some e.dataIndex).getD (-1)⟩ : GraphEdge)]).getD p default
              = (⟨e.node1, e.node2, (some e.dataIndex).getD (-1)⟩ : GraphEdge) := by
            rw [← hrel]
            exact gD_append_len _ _ _
          rw [hx]
          exact he
      have hrem12 : ∀ p, p < k + 1 →
          alookup (r.addEdgeCore e.node1 e.node2 (some e.dataIndex)).edgesMap
            (edgeKeyAt g.nodes g.edges p) = some p := by
        intro p hp
        rw [core_edgesMap]
        by_cases hpk : p < k
        · rw [alookup_cons_ne _ _ _ _
            (fun hEq => by
              have := hkne p (by omega) (by rw [← hkey]; exact hEq)
              omega)]
          exact hrem1 p hpk
        · have hp2 : p = k := by omega
          subst hp2
          rw [hkey, alookup_cons_eq, hrel]
      have hrem22 : ∀ s,
          alookup (r.addEdgeCore e.node1 e.node2 (some e.dataIndex)).edgesMap s ≠ none →
          ∃ p, p < k + 1 ∧ s = edgeKeyAt g.nodes g.edges p := by
        intro s hs
        rw [core_edgesMap] at hs
        by_cases hks : (r.nodes.getD e.node1 default).id ++ "-"
            ++ (r.nodes.getD e.node2 default).id = s
        · refine ⟨k, by omega, ?_⟩
          rw [← hks]
          exact hkey
        · rw [alookup_cons_ne _ _ _ _ hks] at hs
          obtain ⟨p, hp, hsp⟩ := hrem2 s hs
          exact ⟨p, by omega, hsp⟩
      obtain ⟨c1, c2, c3, c4, c5, c6⟩ := ih (k + 1)
        (r.addEdgeCore e.node1 e.node2 (some e.dataIndex))
        hsuf2 hlen2 hrn2 hrid2 hrdi2 hrlook2 hrel2 hredge2 hrem12 hrem22
      rw [hstep]
      exact ⟨c1.trans (core_directed r e.node1 e.node2 (some e.dataIndex)), c2, c3, c4, c5, c6⟩

theorem clone_phase1 (g : Graph) :
    g.nodes.foldl (fun acc n => (acc.addNode (some n.id) (some n.dataIndex)).1)
      (Graph.empty g.directed)
    = addNodesFold (Graph.empty g.directed) (clonePairs g) := by
  unfold clonePairs addNodesFold
  rw [foldl_map_helper]

theorem clonePairs_getD (g : Graph) (m : Nat) (hm : m < g.nodes.length) :
    (clonePairs g).getD m (none, none)
      = ((some ((g.nodes.getD m default).id) : Option String),
         (some ((g.nodes.getD m default).dataIndex) : Option Int)) := by
  unfold clonePairs
  exact gD_map_lt _ _ _ _ default hm

theorem clone_spec (g : Graph) (hInv : g.Inv) : cloneAgrees g := by
  have hnd : ((clonePairs g).map fun p => normalizeId p.1 p.2).Nodup := by
    unfold clonePairs
    rw [List.map_map]
    exact ids_nodup g hInv
  have hfresh : ∀ p ∈ clonePairs g,
      alookup (Graph.empty g.directed).nodesMap
        (generateNodeKey (normalizeId p.1 p.2)) = none := fun p _ => rfl
  obtain ⟨p1len, _, p1get, _, p1look⟩ :=
    addNodesFold_spec (clonePairs g) (Graph.empty g.directed) hfresh hnd
  have hpslen : (clonePairs g).length = g.nodes.length := by
    unfold clonePairs
    rw [List.length_map]
  have hg1len : (addNodesFold (Graph.empty g.directed) (clonePairs g)).nodes.length
      = g.nodes.length := by
    rw [p1len, hpslen]
    exact Nat.zero_add _
  obtain ⟨hfe, hfm, hfd⟩ := addNodesFold_frame (clonePairs g) (Graph.empty g.directed)
  have hid1 : ∀ m,
      ((addNodesFold (Graph.empty g.directed) (clonePairs g)).nodes.getD m default).id
      = (g.nodes.getD m default).id := by
    intro m
    by_cases hm : m < g.nodes.length
    · have hk := p1get m (by rw [hpslen]; exact hm)
      rw [show (Graph.empty g.directed).nodes.length + m = m from Nat.zero_add m,
        clonePairs_getD g m hm] at hk
      rw [hk]
      rfl
    · rw [gD_oob _ _ _ (by rw [hg1len]; omega), gD_oob g.nodes m default (by omega)]
  have hdi1 : ∀ m,
      ((addNodesFold (Graph.empty g.directed) (clonePairs g)).nodes.getD m default).dataIndex
      = (g.nodes.getD m default).dataIndex := by
    intro m
    by_cases hm : m < g.nodes.length
    · have hk := p1get m (by rw [hpslen]; exact hm)
      rw [show (Graph.empty g.directed).nodes.length + m = m from Nat.zero_add m,
        clonePairs_getD g m hm] at hk
      rw [hk]
      rfl
    · rw [gD_oob _ _ _ (by rw [hg1len]; omega), gD_oob g.nodes m default (by omega)]
  have hlook1 : ∀ m, m < g.nodes.length →
      alookup (addNodesFold (Graph.empty g.directed) (clonePairs g)).nodesMap
        (generateNodeKey ((g.nodes.getD m default).id)) = some m := by
    intro m hm
    have hk := p1look m (by rw [hpslen]; exact hm)
    rw [show (Graph.empty g.directed).nodes.length + m = m from Nat.zero_add m,
      clonePairs_getD g m hm] at hk
    exact hk
  obtain ⟨c1, c2, c3, c4, c5, c6⟩ := clone_edges_fold g hInv g.edges 0
    (addNodesFold (Graph.empty g.directed) (clonePairs g))
    (fun m => by rw [Nat.zero_add])
    rfl
    hg1len hid1 hdi1 hlook1
    (by rw [hfe]; rfl)
    (fun p hp => absurd hp (by omega))
    (fun p hp => absurd hp (by omega))
    (fun s hs => absurd (by rw [hfm]; rfl) hs)
  have hcl : g.clone = g.edges.foldl (fun acc e =>
      (acc.addEdge (NodeRef.byId ((g.nodes.getD e.node1 default).id))
        (NodeRef.byId ((g.nodes.getD e.node2 default).id)) (some e.dataIndex)).1)
      (addNodesFold (Graph.empty g.directed) (clonePairs g)) := by
    rw [← clone_phase1]
    rfl
  unfold cloneAgrees
  rw [hcl]
  refine ⟨c1.trans hfd, map_eq_of_getD GraphNode.id _ _ c2 c3,
    map_eq_of_getD GraphNode.dataIndex _ _ c2 c4, c5, ?_⟩
  intro j
  by_cases hj : j < g.edges.length
  · have hE := c6 j hj
    refine ⟨hE, ?_, ?_, by rw [hE]⟩
    · rw [hE]
      exact c3 _
    · rw [hE]
      exact c3 _
  · have h1 : (g.edges.foldl (fun acc e =>
        (acc.addEdge (NodeRef.byId ((g.nodes.getD e.node1 default).id))
          (NodeRef.byId ((g.nodes.getD e.node2 default).id)) (some e.dataIndex)).1)
        (addNodesFold (Graph.empty g.directed) (clonePairs g))).edges.getD j default
        = default := gD_oob _ _ _ (by rw [c5]; omega)
    have h2 : g.edges.getD j default = default := gD_oob _ _ _ (by omega)
    refine ⟨by rw [h1, h2], ?_, ?_, by rw [h1, h2]⟩
    · rw [h1, h2]
      exact c3 _
    · rw [h1, h2]
      exact c3 _

/-- **C6.** `clone()` returns a graph with the same `directed` flag, the
same sequence of node ids and node `dataIndex` values, and the same
sequence of edge endpoint-id pairs and edge `dataIndex` values as the
source graph (for every graph reachable from an empty one by the public
mutators).  The clone's nodes and edges are freshly constructed by
re-running `addNode`/`addEdge` from `Graph.empty`, so they share no
structure with the source. -/
theorem c6_clone_faithful (d : Bool) (ops : List GraphOp) :
    cloneAgrees (buildGraph d ops) :=
  clone_spec (buildGraph d ops) (inv_buildGraph d ops)

/-- Claim C6 witness: clone faithfulness on a concrete undirected graph
with two nodes, an edge and a self-loop, built through the operations. -/
theorem c6_witness :
    cloneAgrees (buildGraph false [GraphOp.addNode (some "A") (some 0),
      GraphOp.addNode (some "B") (some 1),
      GraphOp.addEdge (NodeRef.byId "A") (NodeRef.byId "B") (some 0),
      GraphOp.addEdge (NodeRef.byId "B") (NodeRef.byId "B") (some 1)]) :=
  c6_clone_faithful false [GraphOp.addNode (some "A") (some 0),
    GraphOp.addNode (some "B") (some 1),
    GraphOp.addEdge (NodeRef.byId "A") (NodeRef.byId "B") (some 0),
    GraphOp.addEdge (NodeRef.byId "B") (NodeRef.byId "B") (some 1)]
